import Mathlib

/-!
Shallow embedding of `caiso_scraper.py` (CAISO OASIS LMP scraper).

Conventions used throughout:
* Calendar dates are day numbers (`ℕ`, days since 0000-03-01 in the proleptic
  Gregorian calendar, via `daysFromCivil`).  All date arithmetic in the script
  (`pd.date_range` with a day frequency, `pd.Timedelta(days=k)` comparisons)
  is whole-day arithmetic, so a day counter is an exact model.
* `datetime.now()` is threaded as an explicit `now : ℕ` parameter.
* The pytz/strftime rendering of a timestamp is abstracted into a
  `FormattedTime` record keeping the three inputs; distinct inputs stay
  distinguishable, which is all the scraper ever relies on.
* Python exceptions are `Except Unit`/`Option`; a raised-and-not-caught
  exception is `Except.error`.
* `pandas.DataFrame` is modelled by the columns the scraper touches
  (`INTERVALSTARTTIME_GMT`, `LMP_TYPE`, `MW`, `PRC`); presence of a column is
  tracked by a `cols` list so that `set_index`/column selection can raise
  (KeyError) exactly when the script would.  `NaN` prices are `Option.none`.
* `sort_index()` is modelled by `List.insertionSort` on the index key (any
  correct comparison sort; pandas' quicksort agrees on duplicate-free keys).
-/

namespace Caiso

/-- Day count of a proleptic-Gregorian civil date, counted from 0000-03-01
(standard days-from-civil algorithm, exact for positive years).  Used only to
give the concrete scenario dates of the spec their real day numbers. -/
def daysFromCivil (y m d : ℕ) : ℕ :=
  let y2 := if m ≤ 2 then y - 1 else y
  let era := y2 / 400
  let yoe := y2 - era * 400
  let mp := (m + 9) % 12
  let doy := (153 * mp + 2) / 5 + d - 1
  let doe := yoe * 365 + yoe / 4 - yoe / 100 + doy
  era * 146097 + doe

/-- The three market types accepted by the script (`RT5`, `RT15`, `DA`). -/
inductive Market
  | DA
  | RT5
  | RT15
deriving DecidableEq, Repr

/-- The market string as written on the command line / in the source dicts. -/
def marketStr : Market → String
  | .DA => "DA"
  | .RT5 => "RT5"
  | .RT15 => "RT15"

/-- Line 125: `chunk_period = {'RT5': 1, 'RT15': 15, 'DA': 30}[market]` (days). -/
def chunk_period : Market → ℕ
  | .RT5 => 1
  | .RT15 => 15
  | .DA => 30

/-- Line 130: `result_freq = {'RT5': 5, 'RT15': 15, 'DA': 60}[market]` (minutes);
declared by the script for a validation step that was never added. -/
def result_freq : Market → ℕ
  | .RT5 => 5
  | .RT15 => 15
  | .DA => 60

/-- Line 156: `pricecol = {'DA': 'MW', 'RT5': 'MW', 'RT15': 'PRC'}[market]`. -/
def pricecol : Market → String
  | .DA => "MW"
  | .RT5 => "MW"
  | .RT15 => "PRC"

/-- Abstraction of the string produced by `format_time` (line 39): the
tz-naive date `day` localized to `tz_in`, converted to `tz_out`, rendered with
`strftime("%Y%m%dT%H:%M%z")`.  The timezone database is outside the embedding,
so the record keeps the three inputs of the conversion. -/
structure FormattedTime where
  day : ℕ
  tz_in : String
  tz_out : String
deriving DecidableEq, Repr

/-- Model of `format_time` (lines 39-46). -/
def format_time (dtime : ℕ) (tz_in tz_out : String) : FormattedTime :=
  { day := dtime, tz_in := tz_in, tz_out := tz_out }

/-- The parameter dictionary built by `get_query_params` (lines 57-79). -/
structure QueryParams where
  node : String
  version : ℕ
  startdatetime : FormattedTime
  enddatetime : FormattedTime
  resultformat : ℕ
  queryname : String
  market_run_id : String
deriving DecidableEq, Repr

/-- The non-fatal advisory prints of `get_query_params`. -/
inductive Advisory
  | staleData
  | rt5LongSpan
  | rt15LongSpan
deriving DecidableEq, Repr

/-- Body of `get_query_params` (lines 49-83) after its market assertion has
passed: builds the parameter dictionary and the list of advisory prints.
`now` stands for `datetime.now()`; `39 * 30.3` days is compared in tenths of a
day to keep the arithmetic exact. -/
def get_query_params_m (node : String) (market : Market) (startdate enddate : ℕ)
    (now : ℕ) (tz_in tz_out : String) : QueryParams × List Advisory :=
  let stale : List Advisory :=
    if 10 * ((now : Int) - (startdate : Int)) > 11817 then [.staleData] else []
  let span : List Advisory :=
    match market with
    | .DA => []
    | .RT5 => if enddate - startdate > 1 then [.rt5LongSpan] else []
    | .RT15 => if enddate - startdate > 15 then [.rt15LongSpan] else []
  ({ node := node
     version := 1
     startdatetime := format_time startdate tz_in tz_out
     enddatetime := format_time enddate tz_in tz_out
     resultformat := 6
     queryname :=
       match market with
       | .DA => "PRC_LMP"
       | .RT5 => "PRC_INTVL_LMP"
       | .RT15 => "PRC_RTPD_LMP"
     market_run_id :=
       match market with
       | .DA => "DAM"
       | .RT5 => "RTM"
       | .RT15 => "RTPD" },
   stale ++ span)

/-- The failure of the `assert market in ('RT5', 'RT15', 'DA')` guard
(line 56); the spec names it `InvalidMarket`. -/
inductive QueryError
  | invalidMarket
deriving DecidableEq, Repr

/-- Line 30 / line 56 market-string validation, shared by `parse_args` and
`get_query_params`. -/
def parseMarket (s : String) : Option Market :=
  if s = "RT5" then some .RT5
  else if s = "RT15" then some .RT15
  else if s = "DA" then some .DA
  else none

/-- `get_query_params` (lines 49-83) as called with a raw market string: the
assertion on line 56 fails (`InvalidMarket`) before any parameter is built. -/
def get_query_params (node : String) (market : String) (startdate enddate : ℕ)
    (now : ℕ) (tz_in tz_out : String) :
    Except QueryError (QueryParams × List Advisory) :=
  match parseMarket market with
  | none => .error .invalidMarket
  | some m => .ok (get_query_params_m node m startdate enddate now tz_in tz_out)

/-- A value of the `xmltodict.parse` result: nested string-keyed dictionaries
with string leaves.  Indexing a leaf (string) with a key raises in Python, so
`xmlGet` on a leaf is `none`. -/
inductive XmlVal
  | str : String → XmlVal
  | dict : List (String × XmlVal) → XmlVal

/-- One dictionary lookup `x[key]`; `none` models the raised
KeyError/TypeError. -/
def xmlGet (x : XmlVal) (key : String) : Option XmlVal :=
  match x with
  | .str _ => none
  | .dict d => (d.find? (fun p => p.1 == key)).map (fun p => p.2)

/-- Line 101: the fixed error-description path
`xml_dict['m:OASISReport']['m:MessagePayload']['m:RTO']['m:ERROR']['m:ERR_DESC']`. -/
def errDescPath (x : XmlVal) : Option XmlVal :=
  (((((xmlGet x "m:OASISReport").bind
      (fun v => xmlGet v "m:MessagePayload")).bind
      (fun v => xmlGet v "m:RTO")).bind
      (fun v => xmlGet v "m:ERROR")).bind
      (fun v => xmlGet v "m:ERR_DESC"))

/-- A per-window price sub-series: `(INTERVALSTARTTIME_GMT, price)` pairs in
row order; `none` is a pandas `NaN` price. -/
abbrev PriceSeries := List (ℕ × Option ℚ)

/-- One row of the table that `pd.read_csv` produces, restricted to the fields
the scraper reads.  `intervalStart` is the day-resolution model of the parsed
`INTERVALSTARTTIME_GMT` timestamp (any strictly monotone encoding of instants
works; only order and equality are used). -/
structure DFRow where
  intervalStart : ℕ
  lmpType : String
  mw : Option ℚ
  prc : Option ℚ
deriving DecidableEq, Repr

/-- The parsed CSV table.  `cols` records which column labels are actually
present, so that `set_index('INTERVALSTARTTIME_GMT')` and the
`[['LMP_TYPE', pricecol]]` selection can raise exactly when a label is
missing. -/
structure DataFrame where
  cols : List String
  rows : List DFRow
deriving DecidableEq, Repr

/-- Content of the single entry of the response archive, as seen by the
fetcher: either it parses as CSV (the table), or it does not, in which case
`xmltodict.parse` of the same bytes yields `some` XML value or raises
(`none`). -/
inductive ZipEntry
  | csv : DataFrame → ZipEntry
  | nonCsv : Option XmlVal → ZipEntry

/-- The HTTP response body handed to `scrape_singlezip`: either not a valid
zip archive (line 90 raises; the `String` tags the raw `r` object), or an
archive with its single entry. -/
inductive HttpResponse
  | notZip : String → HttpResponse
  | zip : ZipEntry → HttpResponse

/-- The three kinds of value `scrape_singlezip` can return: the parsed table,
the raw `requests` response object (zip failure), or `None` (line 105). -/
inductive FetchResult
  | dataframe : DataFrame → FetchResult
  | rawResponse : String → FetchResult
  | noData : FetchResult

/-- The `print` calls of the script, as observable events. -/
inductive LogEvent
  | advisory : Advisory → LogEvent
  | zipFailure : LogEvent
  | paramDump : QueryParams → LogEvent
  | csvFailure : LogEvent
  | errDesc : XmlVal → LogEvent
  | querying : ℕ → ℕ → LogEvent
  | windowSuccess : LogEvent
  | windowFailure : ℕ → LogEvent
  | wroteFile : String → LogEvent
  | concatFailure : LogEvent

/-- `scrape_singlezip` (lines 86-105).  The HTTP GET is abstracted by the
`r : HttpResponse` argument.  Paired with its prints.  `Except.error ()` is
the uncaught exception raised on line 100/101 when the non-CSV entry is not a
well-formed error report (the prints made before the raise are dropped with
the exception, as nothing observes them). -/
def scrape_singlezip (params : QueryParams) (r : HttpResponse) :
    Except Unit (FetchResult × List LogEvent) :=
  match r with
  | .notZip raw => .ok (.rawResponse raw, [.zipFailure, .paramDump params])
  | .zip (.csv df) => .ok (.dataframe df, [])
  | .zip (.nonCsv none) => .error ()
  | .zip (.nonCsv (some x)) =>
    match errDescPath x with
    | none => .error ()
    | some msg => .ok (.noData, [.csvFailure, .errDesc msg, .paramDump params])

/-- True when `scrape_singlezip` raises on this response (its single entry
fails CSV parsing and is not an error report with the fixed path). -/
def respRaises (r : HttpResponse) : Bool :=
  match r with
  | .zip (.nonCsv none) => true
  | .zip (.nonCsv (some x)) => (errDescPath x).isNone
  | _ => false

/-- Line 126: `chunk_starts = pd.date_range(start=startdate, end=enddate,
freq=f'{chunk_period}D')` — the dates `s, s+P, s+2P, …` up to and including
the last one `≤ e` (empty when `s > e`). -/
def chunk_starts (P s e : ℕ) : List ℕ :=
  if s ≤ e then (List.range ((e - s) / P + 1)).map (fun i => s + i * P) else []

/-- Lines 142-147: the query window for chunk index `i` — start
`chunk_starts[i]`, end `chunk_starts[i+1]` when more than a chunk period of
the range remains, else `enddate`. -/
def windows (m : Market) (s e : ℕ) : List (ℕ × ℕ) :=
  let P := chunk_period m
  let cs := chunk_starts P s e
  (List.range cs.length).map (fun i =>
    let ts := cs.getD i 0
    (ts, if e - ts > P then cs.getD (i + 1) 0 else e))

/-- Reading the market's price column (`pricecol`) from a row. -/
def priceOf (m : Market) (r : DFRow) : Option ℚ :=
  match m with
  | .DA => r.mw
  | .RT5 => r.mw
  | .RT15 => r.prc

/-- Lines 158-162: `df.set_index('INTERVALSTARTTIME_GMT', drop=True)
[['LMP_TYPE', pricecol]].sort_index()`, then keep rows with
`LMP_TYPE == 'LMP'` and project the price column.  `none` when a column label
is missing (the raised KeyError). -/
def extractSeries (m : Market) (df : DataFrame) : Option PriceSeries :=
  if "INTERVALSTARTTIME_GMT" ∈ df.cols ∧ "LMP_TYPE" ∈ df.cols ∧
      pricecol m ∈ df.cols then
    some ((((List.insertionSort (fun a b => a.intervalStart ≤ b.intervalStart)
        df.rows).filter (fun r => r.lmpType == "LMP")).map
        (fun r => (r.intervalStart, priceOf m r))))
  else none

/-- Line 164: `result_srs.isna().any()`. -/
def hasNull (s : PriceSeries) : Bool :=
  s.any (fun p => p.2.isNone)

/-- Line 180: `pd.concat(results_dict.values()).sort_index()` — flatten the
stored sub-series (window order; the final sort makes the dict's insertion
order immaterial) and sort by timestamp. -/
def concatSorted (results : List (Option PriceSeries)) : PriceSeries :=
  List.insertionSort (fun a b => a.1 ≤ b.1) (results.filterMap id).flatten

/-- The arguments of `scrape_daterange` (lines 108-116), plus the ambient
clock `now` read by `get_query_params`. -/
structure RunCfg where
  node : String
  startdate : ℕ
  enddate : ℕ
  market : Market
  tz_in : String
  tz_query : String
  cache_continuously : Bool
  max_n_attempts : Int
  now : ℕ

/-- The query windows of a run. -/
def cfgWindows (cfg : RunCfg) : List (ℕ × ℕ) :=
  windows cfg.market cfg.startdate cfg.enddate

/-- Number of chunk starts (= number of windows). -/
def nWindows (cfg : RunCfg) : ℕ :=
  (cfgWindows cfg).length

/-- Line 181: the output file name
`LMP_{node}_{market}_{startdate}_{enddate}.csv`. -/
def outName (cfg : RunCfg) : String :=
  "LMP_" ++ cfg.node ++ "_" ++ marketStr cfg.market ++ "_" ++
    Nat.repr cfg.startdate ++ "_" ++ Nat.repr cfg.enddate ++ ".csv"

/-- The mutable state of the `while` loop of `scrape_daterange`:
`attempt_srs` (0-based counts, `-1` after success), `completion_srs`,
`results_dict` (keyed by window index, equivalently by window start),
the scan index `i`, the last value of the local `ts` (line 142; line 190
updates `completion_srs[ts]`), the running `result_srs` local, the last
write to the output file (`none` = never written), the number of HTTP
requests made so far (drives the response oracle), and the print log. -/
structure OrchState where
  attempt : List Int
  completion : List Bool
  results : List (Option PriceSeries)
  cursor : ℕ
  lastTs : ℕ
  ret : PriceSeries
  outFile : Option (String × PriceSeries)
  clock : ℕ
  log : List LogEvent

/-- Lines 138-169: if the current window is not complete, build its query,
fetch it, and process the result.  The `scrape_singlezip` call (line 155)
sits OUTSIDE the `try:` of line 157, so an exception it raises propagates
(`Except.error`).  Inside the `try:`: a missing column raises before the
store; otherwise the sub-series is stored (line 163) BEFORE the null check
(line 164), then the null check decides success (`-1`) versus a counted
failure. -/
def attemptPhase (cfg : RunCfg) (oracle : ℕ → HttpResponse) (st : OrchState) :
    Except Unit OrchState :=
  if st.completion.getD st.cursor true then .ok st
  else
    let w := (cfgWindows cfg).getD st.cursor (0, 0)
    let pa := get_query_params_m cfg.node cfg.market w.1 w.2 cfg.now
      cfg.tz_in cfg.tz_query
    match scrape_singlezip pa.1 (oracle st.clock) with
    | .error e => .error e
    | .ok fr =>
      let st1 : OrchState :=
        { st with
          clock := st.clock + 1
          lastTs := st.cursor
          log := st.log ++ LogEvent.querying w.1 w.2 ::
            (pa.2.map LogEvent.advisory) ++ fr.2 }
      match fr.1 with
      | .dataframe df =>
        match extractSeries cfg.market df with
        | some srs =>
          let st2 : OrchState :=
            { st1 with
              ret := srs
              results := st1.results.set st.cursor (some srs) }
          if hasNull srs then
            .ok { st2 with
              attempt := st2.attempt.set st.cursor
                (st2.attempt.getD st.cursor 0 + 1)
              log := st2.log ++ [.windowFailure w.1] }
          else
            .ok { st2 with
              attempt := st2.attempt.set st.cursor (-1)
              log := st2.log ++ [.windowSuccess] }
        | none =>
          .ok { st1 with
            attempt := st1.attempt.set st.cursor
              (st1.attempt.getD st.cursor 0 + 1)
            log := st1.log ++ [.windowFailure w.1] }
      | .rawResponse _ =>
        .ok { st1 with
          attempt := st1.attempt.set st.cursor
            (st1.attempt.getD st.cursor 0 + 1)
          log := st1.log ++ [.windowFailure w.1] }
      | .noData =>
        .ok { st1 with
          attempt := st1.attempt.set st.cursor
            (st1.attempt.getD st.cursor 0 + 1)
          log := st1.log ++ [.windowFailure w.1] }

/-- Lines 170-173: advance the scan index, wrapping to 0 after the last
chunk. -/
def advanceCursor (n : ℕ) (st : OrchState) : OrchState :=
  { st with cursor := if st.cursor < n - 1 then st.cursor + 1 else 0 }

/-- Lines 175-186: when caching continuously or (nominally) when all windows
are complete, concatenate and sort everything stored so far, remember it in
`result_srs` and overwrite the output file; `pd.concat` of an empty
collection raises, which is caught and logged (lines 184-186).  Note the
`completion_srs.all()` here reads the CURRENT flags — line 190 has not run
yet. -/
def cachePhase (cfg : RunCfg) (st : OrchState) : OrchState :=
  if cfg.cache_continuously || st.completion.all (fun b => b) then
    if (st.results.filterMap id).isEmpty then
      { st with log := st.log ++ [.concatFailure] }
    else
      let c := concatSorted st.results
      { st with
        ret := c
        outFile := some (outName cfg, c)
        log := st.log ++ [.wroteFile (outName cfg)] }
  else st

/-- Line 190: `completion_srs[ts] = (attempt_srs[ts] < 0 or attempt_srs[ts]
>= max_n_attempts)` — `ts` is the start of the window attempted most
recently (stale when the current window was skipped). -/
def completionPhase (cfg : RunCfg) (st : OrchState) : OrchState :=
  let a := st.attempt.getD st.lastTs 0
  { st with
    completion := st.completion.set st.lastTs
      (decide (a < 0 ∨ cfg.max_n_attempts ≤ a)) }

/-- One iteration of the `while` body (lines 135-190). -/
def step (cfg : RunCfg) (oracle : ℕ → HttpResponse) (st : OrchState) :
    Except Unit OrchState :=
  match attemptPhase cfg oracle st with
  | .error e => .error e
  | .ok st1 =>
    .ok (completionPhase cfg (cachePhase cfg (advanceCursor (nWindows cfg) st1)))

/-- The `while not completion_srs.all()` loop (line 135), fuelled.
`some st` is normal loop exit; `none` means the fuel ran out with the loop
still running. -/
def runLoop (cfg : RunCfg) (oracle : ℕ → HttpResponse) :
    ℕ → OrchState → Except Unit (Option OrchState)
  | 0, _ => .ok none
  | fuel + 1, st =>
    if st.completion.all (fun b => b) then .ok (some st)
    else
      match step cfg oracle st with
      | .error e => .error e
      | .ok st1 => runLoop cfg oracle fuel st1

/-- Lines 128-134: the loop state as first entered. -/
def initState (cfg : RunCfg) : OrchState :=
  { attempt := List.replicate (nWindows cfg) 0
    completion := List.replicate (nWindows cfg) false
    results := List.replicate (nWindows cfg) none
    cursor := 0
    lastTs := 0
    ret := []
    outFile := none
    clock := 0
    log := [] }

/-- `scrape_daterange` (lines 108-191): run the loop from the initial state;
on normal exit the function's return value is the final `result_srs`
(`OrchState.ret`). -/
def scrape_daterange (cfg : RunCfg) (oracle : ℕ → HttpResponse) (fuel : ℕ) :
    Except Unit (Option OrchState) :=
  runLoop cfg oracle fuel (initState cfg)

/-- A concrete provider error report with the fixed nested path. -/
def errReport0 : XmlVal :=
  .dict [("m:OASISReport", .dict [("m:MessagePayload", .dict [("m:RTO",
    .dict [("m:ERROR", .dict [("m:ERR_DESC",
    .str "No data returned for the specified selection")])])])])]

/-- The loop invariant of `scrape_daterange`, holding at every guard check of
the `while` loop: the three per-window series have one entry per window, the
scan index and the memorised `ts` are in range, and a window's
`completion_srs` flag equals the line-190 formula of its current attempt
count. -/
structure Inv (cfg : RunCfg) (st : OrchState) : Prop where
  hA : st.attempt.length = nWindows cfg
  hC : st.completion.length = nWindows cfg
  hR : st.results.length = nWindows cfg
  hcur : st.cursor < nWindows cfg
  hlast : st.lastTs < nWindows cfg
  hdone : ∀ j, j < nWindows cfg →
    st.completion.getD j false =
      decide (st.attempt.getD j 0 < 0 ∨
        cfg.max_n_attempts ≤ st.attempt.getD j 0)

/-- Remaining attempt budget of one window with counter `a`. -/
def slack (maxA a : Int) : ℕ := if a < 0 then 0 else (maxA - a).toNat

/-- Total remaining budget: the sum over still-pending windows of the
attempts they may still consume. -/
def phi (cfg : RunCfg) (st : OrchState) : ℕ :=
  ∑ j ∈ Finset.range (nWindows cfg),
    (if st.completion.getD j false then 0
     else slack cfg.max_n_attempts (st.attempt.getD j 0))

/-- Some window at index `≥ c` (and `< n`) is still pending. -/
def pendingAheadB (n c : ℕ) (comp : List Bool) : Bool :=
  (List.range n).any (fun j => decide (c ≤ j) && !(comp.getD j false))

/-- Fuel that always suffices for the scan loop to reach its exit. -/
def budget (cfg : RunCfg) (st : OrchState) : ℕ :=
  phi cfg st * (2 * nWindows cfg) +
    (if pendingAheadB (nWindows cfg) st.cursor st.completion then 0
     else nWindows cfg) +
    (nWindows cfg - st.cursor)

/-! ### Concrete fixtures for the scenario theorems -/

/-- A one-window DA run (range of two days), continuous caching, 5 attempts. -/
def cfgC1 : RunCfg :=
  { node := "SLAP_PGEB-APND", startdate := 0, enddate := 2, market := .DA,
    tz_in := "US/Pacific", tz_query := "UTC", cache_continuously := true,
    max_n_attempts := 5, now := 0 }

/-- The same run with `cache_continuously=False`. -/
def cfgNoCache : RunCfg := { cfgC1 with cache_continuously := false }

/-- A table with two LMP rows (one out of order) and one non-LMP row. -/
def dfGood : DataFrame :=
  { cols := ["INTERVALSTARTTIME_GMT", "INTERVALENDTIME_GMT", "OPR_DT",
      "LMP_TYPE", "MW"],
    rows := [{ intervalStart := 1, lmpType := "LMP", mw := some 10,
               prc := none },
             { intervalStart := 0, lmpType := "MCC", mw := some 3,
               prc := none },
             { intervalStart := 0, lmpType := "LMP", mw := some 7,
               prc := none }] }

/-- A table whose single LMP row carries a null price. -/
def dfNull : DataFrame :=
  { cols := ["INTERVALSTARTTIME_GMT", "INTERVALENDTIME_GMT", "OPR_DT",
      "LMP_TYPE", "MW"],
    rows := [{ intervalStart := 5, lmpType := "LMP", mw := none,
               prc := none }] }

/-- Upstream always answers with a good CSV table. -/
def orGood : ℕ → HttpResponse := fun _ => .zip (.csv dfGood)

/-- Upstream always answers with a null-priced table. -/
def orNull : ℕ → HttpResponse := fun _ => .zip (.csv dfNull)

/-- Upstream always answers with a zip whose entry is neither CSV nor a
well-formed error report. -/
def orGarbage : ℕ → HttpResponse := fun _ => .zip (.nonCsv none)

/-- Upstream always answers with a body that is not a zip archive. -/
def orNotZip : ℕ → HttpResponse := fun _ => .notZip "rate-limit HTML page"

/-! ### Small list helpers -/

theorem getD_default_irrel {α : Type _} (l : List α) (i : ℕ) (h : i < l.length)
    (d d' : α) : l.getD i d = l.getD i d' := by
  rw [List.getD_eq_getElem l d h, List.getD_eq_getElem l d' h]

theorem getD_set_self {α : Type _} (l : List α) (i : ℕ) (h : i < l.length)
    (v d : α) : (l.set i v).getD i d = v := by
  rw [List.getD_eq_getElem _ _ (by simpa using h)]
  exact List.getElem_set_self _

theorem getD_set_ne {α : Type _} (l : List α) {i j : ℕ} (h : i ≠ j)
    (v d : α) : (l.set i v).getD j d = l.getD j d := by
  simp [List.getD_eq_getElem?_getD, List.getElem?_set, h]

theorem set_getD_self {α : Type _} (l : List α) (i : ℕ) (d : α)
    (h : i < l.length) : l.set i (l.getD i d) = l := by
  apply List.ext_getElem?
  intro j
  rw [List.getElem?_set]
  split
  · rename_i hij
    subst hij
    rw [List.getD_eq_getElem l d h, List.getElem?_eq_getElem h]
  · rfl

theorem getD_replicate' {α : Type _} {n i : ℕ} (h : i < n) (a d : α) :
    (List.replicate n a).getD i d = a := by
  rw [List.getD_eq_getElem _ _ (by simpa using h)]
  simp

/-! ### Structure of the window partition -/

theorem chunk_period_pos (m : Market) : 0 < chunk_period m := by
  cases m <;> decide

theorem chunk_starts_length {P s e : ℕ} (h : s ≤ e) :
    (chunk_starts P s e).length = (e - s) / P + 1 := by
  simp [chunk_starts, h]

theorem chunk_starts_getD {P s e i : ℕ} (h : s ≤ e) (hi : i < (e - s) / P + 1) :
    (chunk_starts P s e).getD i 0 = s + i * P := by
  rw [chunk_starts, if_pos h,
    List.getD_eq_getElem _ _ (by simpa using hi), List.getElem_map]
  simp

theorem windows_length {m : Market} {s e : ℕ} (h : s ≤ e) :
    (windows m s e).length = (e - s) / chunk_period m + 1 := by
  simp [windows, chunk_starts_length h]

/-- Closed form of the window at index `i`: start `s + i·P`, end
`min (s + (i+1)·P) e`. -/
theorem windows_getD {m : Market} {s e i : ℕ} (h : s ≤ e)
    (hi : i < (e - s) / chunk_period m + 1) :
    (windows m s e).getD i (0, 0) =
      (s + i * chunk_period m, min (s + (i + 1) * chunk_period m) e) := by
  have hP := chunk_period_pos m
  have hlen : i < (chunk_starts (chunk_period m) s e).length := by
    rw [chunk_starts_length h]; exact hi
  have hts : (chunk_starts (chunk_period m) s e).getD i 0
      = s + i * chunk_period m := chunk_starts_getD h hi
  have hmul : (i + 1) * chunk_period m
      = i * chunk_period m + chunk_period m := by ring
  have hwin : (windows m s e).getD i (0, 0) =
      (s + i * chunk_period m,
        if e - (s + i * chunk_period m) > chunk_period m
        then (chunk_starts (chunk_period m) s e).getD (i + 1) 0 else e) := by
    rw [windows]
    rw [List.getD_eq_getElem _ _ (by simpa using hlen), List.getElem_map,
      List.getElem_range]
    simp only [hts]
  rw [hwin]
  by_cases hc : e - (s + i * chunk_period m) > chunk_period m
  · rw [if_pos hc]
    have hle : (i + 1) * chunk_period m ≤ e - s := by
      rw [hmul]
      generalize i * chunk_period m = t at hc ⊢
      omega
    have hi1 : i + 1 < (e - s) / chunk_period m + 1 :=
      Nat.lt_succ_of_le ((Nat.le_div_iff_mul_le hP).mpr hle)
    rw [chunk_starts_getD h hi1]
    have hmin : s + (i + 1) * chunk_period m ≤ e := by
      rw [hmul]
      generalize i * chunk_period m = t at hc ⊢
      omega
    rw [min_eq_left hmin]
  · rw [if_neg hc]
    have hmin : e ≤ s + (i + 1) * chunk_period m := by
      rw [hmul]
      generalize i * chunk_period m = t at hc ⊢
      omega
    rw [min_eq_right hmin]

/-- C4: for every market the orchestrator splits `[s, e]` into contiguous
windows: `(e-s)/P + 1` of them, the first starting at `s`, each non-final one
exactly `P = chunk_period` days, consecutive windows sharing their boundary,
the last one ending exactly at `e`, and no window reaching past `e`; for
market `DA` with start 2019-06-01 and end 2019-06-03 there is exactly one
window covering the full range. -/
theorem C4_window_partition (m : Market) (s e : ℕ) (h : s ≤ e) :
    (windows m s e).length = (e - s) / chunk_period m + 1 ∧
    ((windows m s e).getD 0 (0, 0)).1 = s ∧
    (∀ i, i + 1 < (windows m s e).length →
      ((windows m s e).getD i (0, 0)).2 - ((windows m s e).getD i (0, 0)).1 =
        chunk_period m) ∧
    (∀ i, i + 1 < (windows m s e).length →
      ((windows m s e).getD (i + 1) (0, 0)).1 =
        ((windows m s e).getD i (0, 0)).2) ∧
    ((windows m s e).getD ((windows m s e).length - 1) (0, 0)).2 = e ∧
    (∀ i, i < (windows m s e).length →
      ((windows m s e).getD i (0, 0)).1 ≤ ((windows m s e).getD i (0, 0)).2 ∧
      ((windows m s e).getD i (0, 0)).2 ≤ e) ∧
    windows .DA (daysFromCivil 2019 6 1) (daysFromCivil 2019 6 3) =
      [(daysFromCivil 2019 6 1, daysFromCivil 2019 6 3)] := by
  have hP := chunk_period_pos m
  have hlen := windows_length (m := m) h
  have key : ∀ i, i < (windows m s e).length →
      (windows m s e).getD i (0, 0) =
        (s + i * chunk_period m, min (s + (i + 1) * chunk_period m) e) := by
    intro i hi
    rw [hlen] at hi
    exact windows_getD h hi
  have hbound : ∀ i, i + 1 < (windows m s e).length →
      s + (i + 1) * chunk_period m ≤ e := by
    intro i hi
    rw [hlen] at hi
    have h1 : i + 1 ≤ (e - s) / chunk_period m := Nat.lt_succ_iff.mp hi
    have h2 := (Nat.le_div_iff_mul_le hP).mp h1
    generalize (i + 1) * chunk_period m = t at h2 ⊢
    omega
  refine ⟨hlen, ?_, ?_, ?_, ?_, ?_, ?_⟩
  · rw [key 0 (by rw [hlen]; exact Nat.succ_pos _)]
    simp
  · intro i hi
    rw [key i (by omega), min_eq_left (hbound i hi)]
    have hmul : (i + 1) * chunk_period m
        = i * chunk_period m + chunk_period m := by ring
    dsimp only
    rw [hmul]
    generalize i * chunk_period m = t
    omega
  · intro i hi
    rw [key i (by omega), key (i + 1) hi, min_eq_left (hbound i hi)]
  · have hlast : (windows m s e).length - 1 < (windows m s e).length := by
      rw [hlen]
      exact Nat.sub_lt (Nat.succ_pos _) Nat.one_pos
    rw [key _ hlast, hlen]
    dsimp only
    have hq : (e - s) / chunk_period m + 1 - 1 = (e - s) / chunk_period m :=
      Nat.add_sub_cancel _ _
    rw [hq]
    have hmul : ((e - s) / chunk_period m + 1) * chunk_period m
        = chunk_period m * ((e - s) / chunk_period m) + chunk_period m := by
      ring
    have hdm := Nat.div_add_mod (e - s) (chunk_period m)
    have hmod : (e - s) % chunk_period m < chunk_period m := Nat.mod_lt _ hP
    have hge : e ≤ s + ((e - s) / chunk_period m + 1) * chunk_period m := by
      rw [hmul]
      generalize chunk_period m * ((e - s) / chunk_period m) = t at hdm ⊢
      generalize (e - s) % chunk_period m = r at hdm hmod
      omega
    rw [min_eq_right hge]
  · intro i hi
    rw [key i hi]
    have h1 : i ≤ (e - s) / chunk_period m := by
      rw [hlen] at hi
      exact Nat.lt_succ_iff.mp hi
    have hse : i * chunk_period m ≤ e - s :=
      le_trans (Nat.mul_le_mul_right (chunk_period m) h1)
        (Nat.div_mul_le_self (e - s) (chunk_period m))
    have hb1 : s + i * chunk_period m ≤ s + (i + 1) * chunk_period m :=
      Nat.add_le_add_left (Nat.mul_le_mul_right _ (Nat.le_succ i)) s
    have hb2 : s + i * chunk_period m ≤ e := by
      generalize i * chunk_period m = t at hse ⊢
      omega
    dsimp only
    exact ⟨le_min hb1 hb2, min_le_right _ _⟩
  · rfl

/-- Witness for C4 at the DA scenario of the spec. -/
theorem C4_window_partition_witness :
    daysFromCivil 2019 6 1 ≤ daysFromCivil 2019 6 3 ∧
    (windows .DA (daysFromCivil 2019 6 1) (daysFromCivil 2019 6 3)).length =
      (daysFromCivil 2019 6 3 - daysFromCivil 2019 6 1) / chunk_period .DA + 1 :=
  ⟨by decide,
    (C4_window_partition .DA (daysFromCivil 2019 6 1) (daysFromCivil 2019 6 3)
      (by decide)).1⟩

/-- The single-day-span advisory of the Query Builder for RT5 (lines 73-76)
is emitted exactly when the window's end minus start exceeds one day. -/
theorem rt5_advisory_iff (node tzi tzo : String) (now ts te : ℕ) :
    Advisory.rt5LongSpan ∈ (get_query_params_m node .RT5 ts te now tzi tzo).2 ↔
      te - ts > 1 := by
  simp only [get_query_params_m, List.mem_append]
  constructor
  · rintro (h | h)
    · split at h <;> simp_all
    · by_cases hc : te - ts > 1
      · exact hc
      · rw [if_neg hc] at h
        simp at h
  · intro hc
    right
    rw [if_pos hc]
    simp

/-- C5 counterexample: for RT5 from 2019-01-01 to 2019-01-03 the code builds
three windows, but NOT all of them are one day long — `pd.date_range` is
endpoint-inclusive, so the third window is the degenerate
`[2019-01-03, 2019-01-03]` of length zero. -/
theorem C5_three_windows_counterexample :
    (windows .RT5 (daysFromCivil 2019 1 1) (daysFromCivil 2019 1 3)).length
      = 3 ∧
    ¬ ∀ w ∈ windows .RT5 (daysFromCivil 2019 1 1) (daysFromCivil 2019 1 3),
        w.2 - w.1 = 1 := by
  constructor
  · rfl
  · decide

/-- C5 amended: RT5 from 2019-01-01 to 2019-01-03 yields exactly three
windows — two one-day windows and a degenerate zero-length window at the end
date; the Query Builder emits the single-day-span advisory for none of them,
and emits it exactly when a window's end minus start exceeds one day. -/
theorem C5_three_windows_amended :
    windows .RT5 (daysFromCivil 2019 1 1) (daysFromCivil 2019 1 3) =
      [(daysFromCivil 2019 1 1, daysFromCivil 2019 1 2),
       (daysFromCivil 2019 1 2, daysFromCivil 2019 1 3),
       (daysFromCivil 2019 1 3, daysFromCivil 2019 1 3)] ∧
    (∀ node tzi tzo : String, ∀ now ts te : ℕ,
      Advisory.rt5LongSpan ∈ (get_query_params_m node .RT5 ts te now tzi tzo).2 ↔
        te - ts > 1) ∧
    (∀ node tzi tzo : String, ∀ now : ℕ,
      ∀ w ∈ windows .RT5 (daysFromCivil 2019 1 1) (daysFromCivil 2019 1 3),
        Advisory.rt5LongSpan ∉
          (get_query_params_m node .RT5 w.1 w.2 now tzi tzo).2) := by
  have hwin : windows .RT5 (daysFromCivil 2019 1 1) (daysFromCivil 2019 1 3) =
      [(daysFromCivil 2019 1 1, daysFromCivil 2019 1 2),
       (daysFromCivil 2019 1 2, daysFromCivil 2019 1 3),
       (daysFromCivil 2019 1 3, daysFromCivil 2019 1 3)] := by decide
  refine ⟨hwin, fun node tzi tzo now ts te => rt5_advisory_iff node tzi tzo now ts te,
    ?_⟩
  intro node tzi tzo now w hw
  rw [hwin] at hw
  rw [rt5_advisory_iff]
  simp only [List.mem_cons, List.not_mem_nil, or_false] at hw
  rcases hw with rfl | rfl | rfl <;> decide

/-- C7 counterexample: when the archive entry fails to parse as CSV and the
same bytes are not a well-formed error report (`xmltodict.parse` raises),
`scrape_singlezip` does NOT return the `None` sentinel — the exception
propagates out of the fetcher. -/
theorem C7_decoding_counterexample :
    scrape_singlezip
      ((get_query_params_m "SLAP_PGEB-APND" .RT5 0 1 0 "US/Pacific"
        "US/Pacific").1) (.zip (.nonCsv none)) = .error () ∧
    ∀ lg, (Except.error () : Except Unit (FetchResult × List LogEvent)) ≠
      .ok (.noData, lg) :=
  ⟨rfl, fun _ h => Except.noConfusion h⟩

/-- C7 amended: the fetcher's decoding policy.  A body that is not a zip
archive is reported with the full parameter set and returned as the raw
response, distinguishable from a parsed table; a parsed CSV entry is returned
unfiltered; a non-CSV entry that parses as an error report with the fixed
path `OASISReport → MessagePayload → RTO → ERROR → ERR_DESC` has its error
description logged and yields the `None` sentinel; a non-CSV entry that is
not such a report makes the fetcher raise instead of returning `None`. -/
theorem C7_decoding_policy :
    (∀ params raw, scrape_singlezip params (.notZip raw) =
      .ok (.rawResponse raw, [.zipFailure, .paramDump params])) ∧
    (∀ params df, scrape_singlezip params (.zip (.csv df)) =
      .ok (.dataframe df, [])) ∧
    (∀ params x msg, errDescPath x = some msg →
      scrape_singlezip params (.zip (.nonCsv (some x))) =
        .ok (.noData, [.csvFailure, .errDesc msg, .paramDump params])) ∧
    (∀ params, scrape_singlezip params (.zip (.nonCsv none)) = .error ()) ∧
    (∀ params x, errDescPath x = none →
      scrape_singlezip params (.zip (.nonCsv (some x))) = .error ()) ∧
    (∀ raw df, FetchResult.rawResponse raw ≠ .dataframe df) := by
  refine ⟨fun _ _ => rfl, fun _ _ => rfl, ?_, fun _ => rfl, ?_,
    fun _ _ h => FetchResult.noConfusion h⟩
  · intro params x msg h
    simp [scrape_singlezip, h]
  · intro params x h
    simp [scrape_singlezip, h]

/-- Witness for C7 on a concrete error report. -/
theorem C7_decoding_policy_witness :
    errDescPath errReport0 =
      some (.str "No data returned for the specified selection") ∧
    scrape_singlezip
      ((get_query_params_m "SLAP_PGEB-APND" .RT5 0 1 0 "US/Pacific"
        "US/Pacific").1) (.zip (.nonCsv (some errReport0))) =
      .ok (.noData, [.csvFailure,
        .errDesc (.str "No data returned for the specified selection"),
        .paramDump ((get_query_params_m "SLAP_PGEB-APND" .RT5 0 1 0
          "US/Pacific" "US/Pacific").1)]) :=
  ⟨rfl, C7_decoding_policy.2.2.1 _ _ _ rfl⟩

/-- C8: the Query Builder's lookup table: for each of the three market
strings the parameter set carries the node, API version 1, the formatted
start and end timestamps, result-format selector 6 (CSV), and the
market-keyed pair of report name and market-run identifier; any other market
string fails the assertion (`InvalidMarket`) before any parameters are
built. -/
theorem C8_query_param_table (node mstr : String) (s e now : ℕ)
    (tzi tzo : String) :
    (mstr = "DA" → ∃ advs, get_query_params node mstr s e now tzi tzo =
      .ok ({ node := node, version := 1,
             startdatetime := format_time s tzi tzo,
             enddatetime := format_time e tzi tzo, resultformat := 6,
             queryname := "PRC_LMP", market_run_id := "DAM" }, advs)) ∧
    (mstr = "RT5" → ∃ advs, get_query_params node mstr s e now tzi tzo =
      .ok ({ node := node, version := 1,
             startdatetime := format_time s tzi tzo,
             enddatetime := format_time e tzi tzo, resultformat := 6,
             queryname := "PRC_INTVL_LMP", market_run_id := "RTM" }, advs)) ∧
    (mstr = "RT15" → ∃ advs, get_query_params node mstr s e now tzi tzo =
      .ok ({ node := node, version := 1,
             startdatetime := format_time s tzi tzo,
             enddatetime := format_time e tzi tzo, resultformat := 6,
             queryname := "PRC_RTPD_LMP", market_run_id := "RTPD" }, advs)) ∧
    (mstr ≠ "DA" → mstr ≠ "RT5" → mstr ≠ "RT15" →
      get_query_params node mstr s e now tzi tzo = .error .invalidMarket) := by
  refine ⟨?_, ?_, ?_, ?_⟩
  · intro h; subst h; exact ⟨_, rfl⟩
  · intro h; subst h; exact ⟨_, rfl⟩
  · intro h; subst h; exact ⟨_, rfl⟩
  · intro h1 h2 h3
    simp [get_query_params, parseMarket, h1, h2, h3]

/-- Witness for C8 at the market strings "DA" and "XX". -/
theorem C8_query_param_table_witness :
    (∃ advs,
      get_query_params "SLAP_PGEB-APND" "DA" 0 2 0 "US/Pacific" "UTC" =
        .ok ({ node := "SLAP_PGEB-APND", version := 1,
               startdatetime := format_time 0 "US/Pacific" "UTC",
               enddatetime := format_time 2 "US/Pacific" "UTC",
               resultformat := 6, queryname := "PRC_LMP",
               market_run_id := "DAM" }, advs)) ∧
    get_query_params "SLAP_PGEB-APND" "XX" 0 2 0 "US/Pacific" "UTC" =
      .error .invalidMarket :=
  ⟨(C8_query_param_table "SLAP_PGEB-APND" "DA" 0 2 0 "US/Pacific" "UTC").1
      rfl,
    (C8_query_param_table "SLAP_PGEB-APND" "XX" 0 2 0 "US/Pacific"
      "UTC").2.2.2 (by decide) (by decide) (by decide)⟩

/-! ### Round-trip property of the concatenation step (C9) -/

theorem filterMap_id_map_some {α : Type _} (l : List α) :
    (l.map some).filterMap id = l := by
  induction l with
  | nil => rfl
  | cons a t ih => simp [ih]

theorem pairwise_le_insertionSort (l : List (ℕ × Option ℚ)) :
    List.Pairwise (fun a b : ℕ × Option ℚ => a.1 ≤ b.1)
      (List.insertionSort (fun a b => a.1 ≤ b.1) l) := by
  haveI : IsTotal (ℕ × Option ℚ) (fun a b => a.1 ≤ b.1) :=
    ⟨fun a b => le_total a.1 b.1⟩
  haveI : IsTrans (ℕ × Option ℚ) (fun a b => a.1 ≤ b.1) :=
    ⟨fun _ _ _ hab hbc => le_trans hab hbc⟩
  exact List.sorted_insertionSort _ l

theorem pairwise_lt_of_le_of_nodup (l : List (ℕ × Option ℚ))
    (hle : List.Pairwise (fun a b : ℕ × Option ℚ => a.1 ≤ b.1) l)
    (hnd : (l.map Prod.fst).Nodup) :
    List.Pairwise (fun a b : ℕ × Option ℚ => a.1 < b.1) l := by
  have hne : List.Pairwise (fun a b : ℕ × Option ℚ => a.1 ≠ b.1) l :=
    List.pairwise_map.mp hnd
  exact (hle.and hne).imp (fun h => lt_of_le_of_ne h.1 h.2)

/-- C9: for contiguous successful windows whose stored sub-series have
strictly increasing timestamps lying inside their own half-open window, the
code's concatenate-and-sort step (line 180) yields a strictly increasing
timestamp sequence — in particular no duplicate timestamps at the shared
boundary of adjacent windows. -/
theorem C9_roundtrip_strict_mono (m : Market) (s e : ℕ)
    (stored : List PriceSeries) (h : s ≤ e)
    (hlen : stored.length = (windows m s e).length)
    (hinc : ∀ i, i < stored.length →
      List.Pairwise (fun a b : ℕ × Option ℚ => a.1 < b.1) (stored.getD i []))
    (hrange : ∀ i, i < stored.length → ∀ q ∈ stored.getD i [],
      ((windows m s e).getD i (0, 0)).1 ≤ q.1 ∧
        q.1 < ((windows m s e).getD i (0, 0)).2) :
    List.Pairwise (fun a b : ℕ × Option ℚ => a.1 < b.1)
      (concatSorted (stored.map some)) := by
  have hP := chunk_period_pos m
  rw [concatSorted, filterMap_id_map_some]
  apply pairwise_lt_of_le_of_nodup _ (pairwise_le_insertionSort _)
  have hperm : (List.insertionSort (fun a b : ℕ × Option ℚ => a.1 ≤ b.1)
      stored.flatten).Perm stored.flatten := List.perm_insertionSort _ _
  rw [(hperm.map Prod.fst).nodup_iff, List.map_flatten, List.nodup_flatten]
  constructor
  · intro l hl
    rw [List.mem_map] at hl
    obtain ⟨srs, hsrs, rfl⟩ := hl
    rw [List.mem_iff_getElem] at hsrs
    obtain ⟨i, hi, rfl⟩ := hsrs
    have hpw := hinc i hi
    rw [List.getD_eq_getElem _ _ hi] at hpw
    exact List.pairwise_map.mpr (hpw.imp (fun hab => ne_of_lt hab))
  · rw [List.pairwise_iff_getElem]
    intro i j hi hj hij
    simp only [List.length_map] at hi hj
    intro t hti htj
    rw [List.getElem_map] at hti htj
    have hki := hrange i (by omega)
    have hkj := hrange j hj
    rw [List.getD_eq_getElem _ _ (by omega : i < stored.length)] at hki
    rw [List.getD_eq_getElem _ _ hj] at hkj
    rw [List.mem_map] at hti htj
    obtain ⟨qi, hqi, rfl⟩ := hti
    obtain ⟨qj, hqj, hqij⟩ := htj
    have hbi := hki qi hqi
    have hbj := hkj qj hqj
    rw [windows_getD h (by rw [hlen, windows_length h] at hi; omega)] at hbi
    rw [windows_getD h (by rw [hlen, windows_length h] at hj; omega)] at hbj
    dsimp only at hbi hbj
    have horder : s + (i + 1) * chunk_period m ≤ s + j * chunk_period m :=
      Nat.add_le_add_left (Nat.mul_le_mul_right _ (by omega)) s
    have h1 : qi.1 < s + (i + 1) * chunk_period m :=
      lt_of_lt_of_le hbi.2 (min_le_left _ _)
    have h2 : s + j * chunk_period m ≤ qj.1 := hbj.1
    omega

/-- Witness for C9 on three concrete contiguous RT5 windows (the third
degenerate, hence empty). -/
theorem C9_roundtrip_strict_mono_witness :
    List.Pairwise (fun a b : ℕ × Option ℚ => a.1 < b.1)
      (concatSorted (([[(0, some 10)], [(1, some 20)], []] :
        List PriceSeries).map some)) :=
  C9_roundtrip_strict_mono .RT5 0 2 [[(0, some 10)], [(1, some 20)], []]
    (by decide) (by decide) (by decide) (by decide)

/-! ### Orchestrator: phase projections, loop invariant, single-step laws -/

theorem advanceCursor_attempt (n : ℕ) (st : OrchState) :
    (advanceCursor n st).attempt = st.attempt := rfl

theorem advanceCursor_completion (n : ℕ) (st : OrchState) :
    (advanceCursor n st).completion = st.completion := rfl

theorem advanceCursor_results (n : ℕ) (st : OrchState) :
    (advanceCursor n st).results = st.results := rfl

theorem advanceCursor_clock (n : ℕ) (st : OrchState) :
    (advanceCursor n st).clock = st.clock := rfl

theorem advanceCursor_lastTs (n : ℕ) (st : OrchState) :
    (advanceCursor n st).lastTs = st.lastTs := rfl

theorem advanceCursor_outFile (n : ℕ) (st : OrchState) :
    (advanceCursor n st).outFile = st.outFile := rfl

theorem advanceCursor_log (n : ℕ) (st : OrchState) :
    (advanceCursor n st).log = st.log := rfl

theorem advanceCursor_cursor (n : ℕ) (st : OrchState) :
    (advanceCursor n st).cursor =
      (if st.cursor < n - 1 then st.cursor + 1 else 0) := rfl

theorem cachePhase_attempt (cfg : RunCfg) (st : OrchState) :
    (cachePhase cfg st).attempt = st.attempt := by
  simp only [cachePhase]
  split
  · split <;> rfl
  · rfl

theorem cachePhase_completion (cfg : RunCfg) (st : OrchState) :
    (cachePhase cfg st).completion = st.completion := by
  simp only [cachePhase]
  split
  · split <;> rfl
  · rfl

theorem cachePhase_results (cfg : RunCfg) (st : OrchState) :
    (cachePhase cfg st).results = st.results := by
  simp only [cachePhase]
  split
  · split <;> rfl
  · rfl

theorem cachePhase_cursor (cfg : RunCfg) (st : OrchState) :
    (cachePhase cfg st).cursor = st.cursor := by
  simp only [cachePhase]
  split
  · split <;> rfl
  · rfl

theorem cachePhase_lastTs (cfg : RunCfg) (st : OrchState) :
    (cachePhase cfg st).lastTs = st.lastTs := by
  simp only [cachePhase]
  split
  · split <;> rfl
  · rfl

theorem cachePhase_clock (cfg : RunCfg) (st : OrchState) :
    (cachePhase cfg st).clock = st.clock := by
  simp only [cachePhase]
  split
  · split <;> rfl
  · rfl

theorem cachePhase_outFile (cfg : RunCfg) (st : OrchState) :
    (cachePhase cfg st).outFile =
      (if (cfg.cache_continuously || st.completion.all (fun b => b)) = true ∧
          (st.results.filterMap id).isEmpty = false
        then some (outName cfg, concatSorted st.results) else st.outFile) := by
  simp only [cachePhase]
  split
  · rename_i hcond
    split
    · rename_i hemp
      rw [if_neg]
      rintro ⟨-, habs⟩
      rw [hemp] at habs
      exact Bool.true_eq_false.mp habs
    · rename_i hemp
      rw [if_pos ⟨hcond, Bool.not_eq_true _ ▸ (by simpa using hemp)⟩]
  · rename_i hcond
    rw [if_neg]
    rintro ⟨habs, -⟩
    exact hcond habs

theorem cachePhase_log_empty (cfg : RunCfg) (st : OrchState)
    (hcond : (cfg.cache_continuously || st.completion.all (fun b => b)) = true)
    (hemp : (st.results.filterMap id).isEmpty = true) :
    (cachePhase cfg st).log = st.log ++ [.concatFailure] := by
  simp only [cachePhase]
  rw [if_pos hcond, if_pos hemp]

theorem completionPhase_attempt (cfg : RunCfg) (st : OrchState) :
    (completionPhase cfg st).attempt = st.attempt := rfl

theorem completionPhase_results (cfg : RunCfg) (st : OrchState) :
    (completionPhase cfg st).results = st.results := rfl

theorem completionPhase_cursor (cfg : RunCfg) (st : OrchState) :
    (completionPhase cfg st).cursor = st.cursor := rfl

theorem completionPhase_lastTs (cfg : RunCfg) (st : OrchState) :
    (completionPhase cfg st).lastTs = st.lastTs := rfl

theorem completionPhase_clock (cfg : RunCfg) (st : OrchState) :
    (completionPhase cfg st).clock = st.clock := rfl

theorem completionPhase_outFile (cfg : RunCfg) (st : OrchState) :
    (completionPhase cfg st).outFile = st.outFile := rfl

theorem completionPhase_log (cfg : RunCfg) (st : OrchState) :
    (completionPhase cfg st).log = st.log := rfl

theorem completionPhase_completion (cfg : RunCfg) (st : OrchState) :
    (completionPhase cfg st).completion =
      st.completion.set st.lastTs
        (decide (st.attempt.getD st.lastTs 0 < 0 ∨
          cfg.max_n_attempts ≤ st.attempt.getD st.lastTs 0)) := rfl

theorem initState_inv (cfg : RunCfg) (hmax : 1 ≤ cfg.max_n_attempts)
    (hn : 0 < nWindows cfg) : Inv cfg (initState cfg) := by
  refine ⟨List.length_replicate _ _, List.length_replicate _ _,
    List.length_replicate _ _, hn, hn, ?_⟩
  intro j hj
  rw [initState]
  simp only
  rw [getD_replicate' hj, getD_replicate' hj]
  have h0 : ¬ ((0 : Int) < 0 ∨ cfg.max_n_attempts ≤ 0) := by omega
  exact (decide_eq_false h0).symm

theorem attemptPhase_skip (cfg : RunCfg) (oracle : ℕ → HttpResponse)
    (st : OrchState) (hlen : st.cursor < st.completion.length)
    (hc : st.completion.getD st.cursor false = true) :
    attemptPhase cfg oracle st = .ok st := by
  have hguard : st.completion.getD st.cursor true = true := by
    rw [getD_default_irrel _ _ hlen true false]
    exact hc
  unfold attemptPhase
  rw [if_pos hguard]

theorem attemptPhase_guard_false (st : OrchState)
    (hlen : st.cursor < st.completion.length)
    (hc : st.completion.getD st.cursor false = false) :
    ¬ (st.completion.getD st.cursor true = true) := by
  rw [getD_default_irrel _ _ hlen true false, hc]
  exact Bool.false_ne_true

theorem attemptPhase_notZip (cfg : RunCfg) (oracle : ℕ → HttpResponse)
    (st : OrchState) (raw : String)
    (hlen : st.cursor < st.completion.length)
    (hc : st.completion.getD st.cursor false = false)
    (hresp : oracle st.clock = .notZip raw) :
    ∃ lg, attemptPhase cfg oracle st = .ok { st with
      clock := st.clock + 1
      lastTs := st.cursor
      attempt := st.attempt.set st.cursor (st.attempt.getD st.cursor 0 + 1)
      log := lg } := by
  simp only [attemptPhase, if_neg (attemptPhase_guard_false st hlen hc), hresp]
  exact ⟨_, rfl⟩

theorem attemptPhase_errXml (cfg : RunCfg) (oracle : ℕ → HttpResponse)
    (st : OrchState) (x : XmlVal) (msg : XmlVal)
    (hlen : st.cursor < st.completion.length)
    (hc : st.completion.getD st.cursor false = false)
    (hresp : oracle st.clock = .zip (.nonCsv (some x)))
    (hx : errDescPath x = some msg) :
    ∃ lg, attemptPhase cfg oracle st = .ok { st with
      clock := st.clock + 1
      lastTs := st.cursor
      attempt := st.attempt.set st.cursor (st.attempt.getD st.cursor 0 + 1)
      log := lg } := by
  simp only [attemptPhase, if_neg (attemptPhase_guard_false st hlen hc), hresp,
    scrape_singlezip, hx]
  exact ⟨_, rfl⟩

theorem attemptPhase_badFrame (cfg : RunCfg) (oracle : ℕ → HttpResponse)
    (st : OrchState) (df : DataFrame)
    (hlen : st.cursor < st.completion.length)
    (hc : st.completion.getD st.cursor false = false)
    (hresp : oracle st.clock = .zip (.csv df))
    (hex : extractSeries cfg.market df = none) :
    ∃ lg, attemptPhase cfg oracle st = .ok { st with
      clock := st.clock + 1
      lastTs := st.cursor
      attempt := st.attempt.set st.cursor (st.attempt.getD st.cursor 0 + 1)
      log := lg } := by
  simp only [attemptPhase, if_neg (attemptPhase_guard_false st hlen hc), hresp,
    scrape_singlezip, hex]
  exact ⟨_, rfl⟩

theorem attemptPhase_nullStore (cfg : RunCfg) (oracle : ℕ → HttpResponse)
    (st : OrchState) (df : DataFrame) (srs : PriceSeries)
    (hlen : st.cursor < st.completion.length)
    (hc : st.completion.getD st.cursor false = false)
    (hresp : oracle st.clock = .zip (.csv df))
    (hex : extractSeries cfg.market df = some srs)
    (hnull : hasNull srs = true) :
    ∃ lg, attemptPhase cfg oracle st = .ok { st with
      clock := st.clock + 1
      lastTs := st.cursor
      ret := srs
      results := st.results.set st.cursor (some srs)
      attempt := st.attempt.set st.cursor (st.attempt.getD st.cursor 0 + 1)
      log := lg } := by
  simp only [attemptPhase, if_neg (attemptPhase_guard_false st hlen hc), hresp,
    scrape_singlezip, hex, hnull]
  exact ⟨_, rfl⟩

theorem attemptPhase_success (cfg : RunCfg) (oracle : ℕ → HttpResponse)
    (st : OrchState) (df : DataFrame) (srs : PriceSeries)
    (hlen : st.cursor < st.completion.length)
    (hc : st.completion.getD st.cursor false = false)
    (hresp : oracle st.clock = .zip (.csv df))
    (hex : extractSeries cfg.market df = some srs)
    (hnull : hasNull srs = false) :
    ∃ lg, attemptPhase cfg oracle st = .ok { st with
      clock := st.clock + 1
      lastTs := st.cursor
      ret := srs
      results := st.results.set st.cursor (some srs)
      attempt := st.attempt.set st.cursor (-1)
      log := lg } := by
  simp only [attemptPhase, if_neg (attemptPhase_guard_false st hlen hc), hresp,
    scrape_singlezip, hex, hnull]
  exact ⟨_, rfl⟩

theorem attemptPhase_raises (cfg : RunCfg) (oracle : ℕ → HttpResponse)
    (st : OrchState)
    (hlen : st.cursor < st.completion.length)
    (hc : st.completion.getD st.cursor false = false)
    (hraise : respRaises (oracle st.clock) = true) :
    attemptPhase cfg oracle st = .error () := by
  unfold attemptPhase
  rw [if_neg (attemptPhase_guard_false st hlen hc)]
  match hr : oracle st.clock with
  | .notZip raw => rw [hr] at hraise; exact absurd hraise (by simp [respRaises])
  | .zip (.csv df) => rw [hr] at hraise; exact absurd hraise (by simp [respRaises])
  | .zip (.nonCsv none) => rfl
  | .zip (.nonCsv (some x)) =>
    rw [hr] at hraise
    simp only [respRaises, Option.isNone_iff_eq_none] at hraise
    simp only [scrape_singlezip, hraise]

theorem cachePhase_concatFailure_mem (cfg : RunCfg) (st : OrchState)
    (hcond : (cfg.cache_continuously || st.completion.all (fun b => b)) = true)
    (hemp : (st.results.filterMap id).isEmpty = true) :
    LogEvent.concatFailure ∈ (cachePhase cfg st).log := by
  rw [cachePhase_log_empty cfg st hcond hemp]
  exact List.mem_append_right _ (by simp)

theorem stepEq (cfg : RunCfg) (oracle : ℕ → HttpResponse) (st st1 : OrchState)
    (hap : attemptPhase cfg oracle st = .ok st1) :
    step cfg oracle st =
      .ok (completionPhase cfg (cachePhase cfg
        (advanceCursor (nWindows cfg) st1))) := by
  simp only [step, hap]

theorem step_raises (cfg : RunCfg) (oracle : ℕ → HttpResponse)
    (st : OrchState) (hInv : Inv cfg st)
    (hc : st.completion.getD st.cursor false = false)
    (hraise : respRaises (oracle st.clock) = true) :
    step cfg oracle st = .error () := by
  simp only [step,
    attemptPhase_raises cfg oracle st (hInv.hC ▸ hInv.hcur) hc hraise]

theorem step_skip (cfg : RunCfg) (oracle : ℕ → HttpResponse)
    (st : OrchState) (hInv : Inv cfg st)
    (hc : st.completion.getD st.cursor false = true) :
    ∃ st', step cfg oracle st = .ok st' ∧
      st'.attempt = st.attempt ∧
      st'.completion = st.completion ∧
      st'.results = st.results ∧
      st'.clock = st.clock ∧
      st'.lastTs = st.lastTs ∧
      st'.cursor = (if st.cursor < nWindows cfg - 1 then st.cursor + 1 else 0) ∧
      st'.outFile = (if (cfg.cache_continuously ||
            st.completion.all (fun b => b)) = true ∧
          (st.results.filterMap id).isEmpty = false
        then some (outName cfg, concatSorted st.results) else st.outFile) ∧
      ((cfg.cache_continuously || st.completion.all (fun b => b)) = true →
        (st.results.filterMap id).isEmpty = true →
        LogEvent.concatFailure ∈ st'.log) := by
  have hap := attemptPhase_skip cfg oracle st (hInv.hC ▸ hInv.hcur) hc
  refine ⟨_, stepEq cfg oracle st st hap, ?_, ?_, ?_, ?_, ?_, ?_, ?_, ?_⟩
  · simp only [completionPhase_attempt, cachePhase_attempt,
      advanceCursor_attempt]
  · rw [completionPhase_completion, cachePhase_lastTs, advanceCursor_lastTs,
      cachePhase_attempt, advanceCursor_attempt, cachePhase_completion,
      advanceCursor_completion, ← hInv.hdone st.lastTs hInv.hlast]
    exact set_getD_self _ _ _ (hInv.hC ▸ hInv.hlast)
  · simp only [completionPhase_results, cachePhase_results,
      advanceCursor_results]
  · simp only [completionPhase_clock, cachePhase_clock, advanceCursor_clock]
  · simp only [completionPhase_lastTs, cachePhase_lastTs, advanceCursor_lastTs]
  · simp only [completionPhase_cursor, cachePhase_cursor, advanceCursor_cursor]
  · rw [completionPhase_outFile, cachePhase_outFile]
    simp only [advanceCursor_completion, advanceCursor_results,
      advanceCursor_outFile]
  · intro h1 h2
    rw [completionPhase_log]
    exact cachePhase_concatFailure_mem cfg _ h1 h2

theorem step_fail (cfg : RunCfg) (oracle : ℕ → HttpResponse)
    (st : OrchState) (hInv : Inv cfg st)
    (hc : st.completion.getD st.cursor false = false)
    (hfail : (∃ raw, oracle st.clock = .notZip raw) ∨
      (∃ x msg, oracle st.clock = .zip (.nonCsv (some x)) ∧
        errDescPath x = some msg) ∨
      (∃ df, oracle st.clock = .zip (.csv df) ∧
        extractSeries cfg.market df = none)) :
    ∃ st', step cfg oracle st = .ok st' ∧
      st'.attempt = st.attempt.set st.cursor
        (st.attempt.getD st.cursor 0 + 1) ∧
      st'.completion = st.completion.set st.cursor
        (decide (cfg.max_n_attempts ≤ st.attempt.getD st.cursor 0 + 1)) ∧
      st'.results = st.results ∧
      st'.clock = st.clock + 1 ∧
      st'.lastTs = st.cursor ∧
      st'.cursor = (if st.cursor < nWindows cfg - 1 then st.cursor + 1 else 0) ∧
      st'.outFile = (if (cfg.cache_continuously ||
            st.completion.all (fun b => b)) = true ∧
          (st.results.filterMap id).isEmpty = false
        then some (outName cfg, concatSorted st.results) else st.outFile) ∧
      ((cfg.cache_continuously || st.completion.all (fun b => b)) = true →
        (st.results.filterMap id).isEmpty = true →
        LogEvent.concatFailure ∈ st'.log) := by
  have hlenC : st.cursor < st.completion.length := hInv.hC ▸ hInv.hcur
  have hlenA : st.cursor < st.attempt.length := hInv.hA ▸ hInv.hcur
  have hold : ¬ (st.attempt.getD st.cursor 0 < 0 ∨
      cfg.max_n_attempts ≤ st.attempt.getD st.cursor 0) := by
    have h := hInv.hdone st.cursor hInv.hcur
    rw [hc] at h
    exact of_decide_eq_false h.symm
  have hge : 0 ≤ st.attempt.getD st.cursor 0 := by
    by_contra hlt
    exact hold (Or.inl (by omega))
  have hdec : (decide (st.attempt.getD st.cursor 0 + 1 < 0 ∨
        cfg.max_n_attempts ≤ st.attempt.getD st.cursor 0 + 1)) =
      decide (cfg.max_n_attempts ≤ st.attempt.getD st.cursor 0 + 1) := by
    rw [decide_eq_decide]
    constructor
    · rintro (h | h)
      · exact absurd h (by omega)
      · exact h
    · exact Or.inr
  have hap : ∃ lg, attemptPhase cfg oracle st = .ok { st with
      clock := st.clock + 1
      lastTs := st.cursor
      attempt := st.attempt.set st.cursor (st.attempt.getD st.cursor 0 + 1)
      log := lg } := by
    rcases hfail with ⟨raw, hr⟩ | ⟨x, msg, hr, hx⟩ | ⟨df, hr, hex⟩
    · exact attemptPhase_notZip cfg oracle st raw hlenC hc hr
    · exact attemptPhase_errXml cfg oracle st x msg hlenC hc hr hx
    · exact attemptPhase_badFrame cfg oracle st df hlenC hc hr hex
  obtain ⟨lg, hap⟩ := hap
  refine ⟨_, stepEq cfg oracle st _ hap, ?_, ?_, ?_, ?_, ?_, ?_, ?_, ?_⟩
  · simp only [completionPhase_attempt, cachePhase_attempt,
      advanceCursor_attempt]
  · rw [completionPhase_completion, cachePhase_lastTs, advanceCursor_lastTs,
      cachePhase_attempt, advanceCursor_attempt, cachePhase_completion,
      advanceCursor_completion]
    show st.completion.set st.cursor _ = _
    rw [getD_set_self _ _ hlenA, hdec]
  · simp only [completionPhase_results, cachePhase_results,
      advanceCursor_results]
  · simp only [completionPhase_clock, cachePhase_clock, advanceCursor_clock]
  · simp only [completionPhase_lastTs, cachePhase_lastTs, advanceCursor_lastTs]
  · simp only [completionPhase_cursor, cachePhase_cursor, advanceCursor_cursor]
  · rw [completionPhase_outFile, cachePhase_outFile]
    simp only [advanceCursor_completion, advanceCursor_results,
      advanceCursor_outFile]
  · intro h1 h2
    rw [completionPhase_log]
    exact cachePhase_concatFailure_mem cfg _ h1 h2

theorem step_nullStore (cfg : RunCfg) (oracle : ℕ → HttpResponse)
    (st : OrchState) (df : DataFrame) (srs : PriceSeries) (hInv : Inv cfg st)
    (hc : st.completion.getD st.cursor false = false)
    (hresp : oracle st.clock = .zip (.csv df))
    (hex : extractSeries cfg.market df = some srs)
    (hnull : hasNull srs = true) :
    ∃ st', step cfg oracle st = .ok st' ∧
      st'.attempt = st.attempt.set st.cursor
        (st.attempt.getD st.cursor 0 + 1) ∧
      st'.completion = st.completion.set st.cursor
        (decide (cfg.max_n_attempts ≤ st.attempt.getD st.cursor 0 + 1)) ∧
      st'.results = st.results.set st.cursor (some srs) ∧
      st'.clock = st.clock + 1 ∧
      st'.lastTs = st.cursor ∧
      st'.cursor = (if st.cursor < nWindows cfg - 1 then st.cursor + 1 else 0) := by
  have hlenC : st.cursor < st.completion.length := hInv.hC ▸ hInv.hcur
  have hlenA : st.cursor < st.attempt.length := hInv.hA ▸ hInv.hcur
  have hold : ¬ (st.attempt.getD st.cursor 0 < 0 ∨
      cfg.max_n_attempts ≤ st.attempt.getD st.cursor 0) := by
    have h := hInv.hdone st.cursor hInv.hcur
    rw [hc] at h
    exact of_decide_eq_false h.symm
  have hge : 0 ≤ st.attempt.getD st.cursor 0 := by
    by_contra hlt
    exact hold (Or.inl (by omega))
  have hdec : (decide (st.attempt.getD st.cursor 0 + 1 < 0 ∨
        cfg.max_n_attempts ≤ st.attempt.getD st.cursor 0 + 1)) =
      decide (cfg.max_n_attempts ≤ st.attempt.getD st.cursor 0 + 1) := by
    rw [decide_eq_decide]
    constructor
    · rintro (h | h)
      · exact absurd h (by omega)
      · exact h
    · exact Or.inr
  obtain ⟨lg, hap⟩ :=
    attemptPhase_nullStore cfg oracle st df srs hlenC hc hresp hex hnull
  refine ⟨_, stepEq cfg oracle st _ hap, ?_, ?_, ?_, ?_, ?_, ?_⟩
  · simp only [completionPhase_attempt, cachePhase_attempt,
      advanceCursor_attempt]
  · rw [completionPhase_completion, cachePhase_lastTs, advanceCursor_lastTs,
      cachePhase_attempt, advanceCursor_attempt, cachePhase_completion,
      advanceCursor_completion]
    show st.completion.set st.cursor _ = _
    rw [getD_set_self _ _ hlenA, hdec]
  · simp only [completionPhase_results, cachePhase_results,
      advanceCursor_results]
  · simp only [completionPhase_clock, cachePhase_clock, advanceCursor_clock]
  · simp only [completionPhase_lastTs, cachePhase_lastTs, advanceCursor_lastTs]
  · simp only [completionPhase_cursor, cachePhase_cursor, advanceCursor_cursor]

theorem step_success (cfg : RunCfg) (oracle : ℕ → HttpResponse)
    (st : OrchState) (df : DataFrame) (srs : PriceSeries) (hInv : Inv cfg st)
    (hc : st.completion.getD st.cursor false = false)
    (hresp : oracle st.clock = .zip (.csv df))
    (hex : extractSeries cfg.market df = some srs)
    (hnull : hasNull srs = false) :
    ∃ st', step cfg oracle st = .ok st' ∧
      st'.attempt = st.attempt.set st.cursor (-1) ∧
      st'.completion = st.completion.set st.cursor true ∧
      st'.results = st.results.set st.cursor (some srs) ∧
      st'.clock = st.clock + 1 ∧
      st'.lastTs = st.cursor ∧
      st'.cursor = (if st.cursor < nWindows cfg - 1 then st.cursor + 1 else 0) := by
  have hlenA : st.cursor < st.attempt.length := hInv.hA ▸ hInv.hcur
  obtain ⟨lg, hap⟩ :=
    attemptPhase_success cfg oracle st df srs (hInv.hC ▸ hInv.hcur) hc hresp
      hex hnull
  refine ⟨_, stepEq cfg oracle st _ hap, ?_, ?_, ?_, ?_, ?_, ?_⟩
  · simp only [completionPhase_attempt, cachePhase_attempt,
      advanceCursor_attempt]
  · rw [completionPhase_completion, cachePhase_lastTs, advanceCursor_lastTs,
      cachePhase_attempt, advanceCursor_attempt, cachePhase_completion,
      advanceCursor_completion]
    show st.completion.set st.cursor _ = _
    rw [getD_set_self _ _ hlenA]
    have hd : (decide ((-1 : Int) < 0 ∨ cfg.max_n_attempts ≤ -1)) = true :=
      decide_eq_true (Or.inl (by norm_num))
    rw [hd]
  · simp only [completionPhase_results, cachePhase_results,
      advanceCursor_results]
  · simp only [completionPhase_clock, cachePhase_clock, advanceCursor_clock]
  · simp only [completionPhase_lastTs, cachePhase_lastTs, advanceCursor_lastTs]
  · simp only [completionPhase_cursor, cachePhase_cursor, advanceCursor_cursor]

theorem Inv.of_eqs (cfg : RunCfg) {st st' : OrchState} (hInv : Inv cfg st)
    (hA : st'.attempt = st.attempt) (hC : st'.completion = st.completion)
    (hR : st'.results = st.results)
    (hcur : st'.cursor =
      (if st.cursor < nWindows cfg - 1 then st.cursor + 1 else 0))
    (hl : st'.lastTs = st.lastTs) : Inv cfg st' := by
  have hn : 0 < nWindows cfg := lt_of_le_of_lt (Nat.zero_le _) hInv.hcur
  refine ⟨hA ▸ hInv.hA, hC ▸ hInv.hC, hR ▸ hInv.hR, ?_, hl ▸ hInv.hlast, ?_⟩
  · rw [hcur]
    split
    · omega
    · exact hn
  · intro j hj
    rw [hC, hA]
    exact hInv.hdone j hj

theorem inv_after_fail (cfg : RunCfg) {st st' : OrchState} (hInv : Inv cfg st)
    (hge : 0 ≤ st.attempt.getD st.cursor 0)
    (hA : st'.attempt =
      st.attempt.set st.cursor (st.attempt.getD st.cursor 0 + 1))
    (hC : st'.completion = st.completion.set st.cursor
      (decide (cfg.max_n_attempts ≤ st.attempt.getD st.cursor 0 + 1)))
    (hRlen : st'.results.length = nWindows cfg)
    (hcur : st'.cursor =
      (if st.cursor < nWindows cfg - 1 then st.cursor + 1 else 0))
    (hl : st'.lastTs = st.cursor) : Inv cfg st' := by
  have hn : 0 < nWindows cfg := lt_of_le_of_lt (Nat.zero_le _) hInv.hcur
  have hlenA : st.cursor < st.attempt.length := hInv.hA ▸ hInv.hcur
  have hlenC : st.cursor < st.completion.length := hInv.hC ▸ hInv.hcur
  refine ⟨?_, ?_, hRlen, ?_, hl ▸ hInv.hcur, ?_⟩
  · rw [hA, List.length_set]
    exact hInv.hA
  · rw [hC, List.length_set]
    exact hInv.hC
  · rw [hcur]
    split
    · omega
    · exact hn
  · intro j hj
    rw [hC, hA]
    by_cases hji : st.cursor = j
    · subst hji
      rw [getD_set_self _ _ hlenC, getD_set_self _ _ hlenA]
      rw [decide_eq_decide]
      constructor
      · exact Or.inr
      · rintro (h | h)
        · exact absurd h (by omega)
        · exact h
    · rw [getD_set_ne _ hji, getD_set_ne _ hji]
      exact hInv.hdone j hj

theorem inv_after_success (cfg : RunCfg) {st st' : OrchState}
    (hInv : Inv cfg st)
    (hA : st'.attempt = st.attempt.set st.cursor (-1))
    (hC : st'.completion = st.completion.set st.cursor true)
    (hRlen : st'.results.length = nWindows cfg)
    (hcur : st'.cursor =
      (if st.cursor < nWindows cfg - 1 then st.cursor + 1 else 0))
    (hl : st'.lastTs = st.cursor) : Inv cfg st' := by
  have hn : 0 < nWindows cfg := lt_of_le_of_lt (Nat.zero_le _) hInv.hcur
  have hlenA : st.cursor < st.attempt.length := hInv.hA ▸ hInv.hcur
  have hlenC : st.cursor < st.completion.length := hInv.hC ▸ hInv.hcur
  refine ⟨?_, ?_, hRlen, ?_, hl ▸ hInv.hcur, ?_⟩
  · rw [hA, List.length_set]
    exact hInv.hA
  · rw [hC, List.length_set]
    exact hInv.hC
  · rw [hcur]
    split
    · omega
    · exact hn
  · intro j hj
    rw [hC, hA]
    by_cases hji : st.cursor = j
    · subst hji
      rw [getD_set_self _ _ hlenC, getD_set_self _ _ hlenA]
      exact (decide_eq_true (Or.inl (by norm_num))).symm
    · rw [getD_set_ne _ hji, getD_set_ne _ hji]
      exact hInv.hdone j hj

theorem step_inv (cfg : RunCfg) (oracle : ℕ → HttpResponse)
    (st st1 : OrchState) (hInv : Inv cfg st)
    (hstep : step cfg oracle st = .ok st1) : Inv cfg st1 := by
  cases hcb : st.completion.getD st.cursor false with
  | true =>
    obtain ⟨st', hs, hA, hC, hR, _, hl, hcur, _, _⟩ :=
      step_skip cfg oracle st hInv hcb
    rw [hs] at hstep
    cases hstep
    exact Inv.of_eqs cfg hInv hA hC hR hcur (hl.trans rfl)
  | false =>
    have hge : 0 ≤ st.attempt.getD st.cursor 0 := by
      have h := hInv.hdone st.cursor hInv.hcur
      rw [hcb] at h
      have h2 := of_decide_eq_false h.symm
      by_contra hlt
      exact h2 (Or.inl (by omega))
    match hr : oracle st.clock with
    | .notZip raw =>
      obtain ⟨st', hs, hA, hC, hR, _, hl, hcur, _, _⟩ :=
        step_fail cfg oracle st hInv hcb (Or.inl ⟨raw, hr⟩)
      rw [hs] at hstep
      cases hstep
      exact inv_after_fail cfg hInv hge hA hC (hR ▸ hInv.hR) hcur hl
    | .zip (.nonCsv none) =>
      rw [step_raises cfg oracle st hInv hcb (by rw [hr]; rfl)] at hstep
      cases hstep
    | .zip (.nonCsv (some x)) =>
      match hx : errDescPath x with
      | none =>
        rw [step_raises cfg oracle st hInv hcb
          (by rw [hr]; simp [respRaises, hx])] at hstep
        cases hstep
      | some msg =>
        obtain ⟨st', hs, hA, hC, hR, _, hl, hcur, _, _⟩ :=
          step_fail cfg oracle st hInv hcb (Or.inr (Or.inl ⟨x, msg, hr, hx⟩))
        rw [hs] at hstep
        cases hstep
        exact inv_after_fail cfg hInv hge hA hC (hR ▸ hInv.hR) hcur hl
    | .zip (.csv df) =>
      match hex : extractSeries cfg.market df with
      | none =>
        obtain ⟨st', hs, hA, hC, hR, _, hl, hcur, _, _⟩ :=
          step_fail cfg oracle st hInv hcb (Or.inr (Or.inr ⟨df, hr, hex⟩))
        rw [hs] at hstep
        cases hstep
        exact inv_after_fail cfg hInv hge hA hC (hR ▸ hInv.hR) hcur hl
      | some srs =>
        cases hnull : hasNull srs with
        | true =>
          obtain ⟨st', hs, hA, hC, hR, _, hl, hcur⟩ :=
            step_nullStore cfg oracle st df srs hInv hcb hr hex hnull
          rw [hs] at hstep
          cases hstep
          refine inv_after_fail cfg hInv hge hA hC ?_ hcur hl
          rw [hR, List.length_set]
          exact hInv.hR
        | false =>
          obtain ⟨st', hs, hA, hC, hR, _, hl, hcur⟩ :=
            step_success cfg oracle st df srs hInv hcb hr hex hnull
          rw [hs] at hstep
          cases hstep
          refine inv_after_success cfg hInv hA hC ?_ hcur hl
          rw [hR, List.length_set]
          exact hInv.hR

/-! ### Termination measure -/

theorem phi_congr (cfg : RunCfg) {st st' : OrchState}
    (hA : st'.attempt = st.attempt) (hC : st'.completion = st.completion) :
    phi cfg st' = phi cfg st := by
  simp only [phi, hA, hC]

theorem pending_bounds (cfg : RunCfg) {st : OrchState} (hInv : Inv cfg st)
    (hc : st.completion.getD st.cursor false = false) :
    0 ≤ st.attempt.getD st.cursor 0 ∧
      st.attempt.getD st.cursor 0 < cfg.max_n_attempts := by
  have h := hInv.hdone st.cursor hInv.hcur
  rw [hc] at h
  have h2 := of_decide_eq_false h.symm
  constructor
  · by_contra hlt
    exact h2 (Or.inl (by omega))
  · by_contra hlt
    exact h2 (Or.inr (by omega))

theorem phi_lt_after_fail (cfg : RunCfg) {st st' : OrchState}
    (hInv : Inv cfg st)
    (hc : st.completion.getD st.cursor false = false)
    (hA : st'.attempt =
      st.attempt.set st.cursor (st.attempt.getD st.cursor 0 + 1))
    (hC : st'.completion = st.completion.set st.cursor
      (decide (cfg.max_n_attempts ≤ st.attempt.getD st.cursor 0 + 1))) :
    phi cfg st' < phi cfg st := by
  have hlenA : st.cursor < st.attempt.length := hInv.hA ▸ hInv.hcur
  have hlenC : st.cursor < st.completion.length := hInv.hC ▸ hInv.hcur
  obtain ⟨hge, hlt⟩ := pending_bounds cfg hInv hc
  unfold phi
  apply Finset.sum_lt_sum
  · intro j hj
    by_cases hji : st.cursor = j
    · subst hji
      rw [hC, hA, getD_set_self _ _ hlenC, getD_set_self _ _ hlenA, hc]
      split
      · exact Nat.zero_le _
      · simp only [slack, Bool.false_eq_true, if_false]
        rw [if_neg (by omega), if_neg (by omega)]
        omega
    · rw [hC, hA, getD_set_ne _ hji, getD_set_ne _ hji]
  · refine ⟨st.cursor, Finset.mem_range.mpr hInv.hcur, ?_⟩
    rw [hC, hA, getD_set_self _ _ hlenC, getD_set_self _ _ hlenA, hc]
    simp only [Bool.false_eq_true, if_false]
    split
    · simp only [slack]
      rw [if_neg (by omega)]
      omega
    · simp only [slack]
      rw [if_neg (by omega), if_neg (by omega)]
      omega

theorem phi_lt_after_success (cfg : RunCfg) {st st' : OrchState}
    (hInv : Inv cfg st)
    (hc : st.completion.getD st.cursor false = false)
    (hA : st'.attempt = st.attempt.set st.cursor (-1))
    (hC : st'.completion = st.completion.set st.cursor true) :
    phi cfg st' < phi cfg st := by
  have hlenA : st.cursor < st.attempt.length := hInv.hA ▸ hInv.hcur
  have hlenC : st.cursor < st.completion.length := hInv.hC ▸ hInv.hcur
  obtain ⟨hge, hlt⟩ := pending_bounds cfg hInv hc
  unfold phi
  apply Finset.sum_lt_sum
  · intro j hj
    by_cases hji : st.cursor = j
    · subst hji
      rw [hC, hA, getD_set_self _ _ hlenC, getD_set_self _ _ hlenA, hc]
      simp
    · rw [hC, hA, getD_set_ne _ hji, getD_set_ne _ hji]
  · refine ⟨st.cursor, Finset.mem_range.mpr hInv.hcur, ?_⟩
    rw [hC, hA, getD_set_self _ _ hlenC, getD_set_self _ _ hlenA, hc]
    simp only [Bool.false_eq_true, if_false, if_true, slack]
    rw [if_neg (by omega)]
    omega

theorem step_pending_good (cfg : RunCfg) (oracle : ℕ → HttpResponse)
    (st : OrchState) (hInv : Inv cfg st)
    (hc : st.completion.getD st.cursor false = false)
    (hgood : respRaises (oracle st.clock) = false) :
    ∃ st', step cfg oracle st = .ok st' ∧ Inv cfg st' ∧
      phi cfg st' < phi cfg st ∧
      st'.cursor =
        (if st.cursor < nWindows cfg - 1 then st.cursor + 1 else 0) := by
  have hge := (pending_bounds cfg hInv hc).1
  match hr : oracle st.clock with
  | .notZip raw =>
    obtain ⟨st', hs, hA, hC, hR, _, hl, hcur, _, _⟩ :=
      step_fail cfg oracle st hInv hc (Or.inl ⟨raw, hr⟩)
    exact ⟨st', hs,
      inv_after_fail cfg hInv hge hA hC (hR ▸ hInv.hR) hcur hl,
      phi_lt_after_fail cfg hInv hc hA hC, hcur⟩
  | .zip (.nonCsv none) =>
    rw [hr] at hgood
    simp [respRaises] at hgood
  | .zip (.nonCsv (some x)) =>
    match hx : errDescPath x with
    | none =>
      rw [hr] at hgood
      simp [respRaises, hx] at hgood
    | some msg =>
      obtain ⟨st', hs, hA, hC, hR, _, hl, hcur, _, _⟩ :=
        step_fail cfg oracle st hInv hc (Or.inr (Or.inl ⟨x, msg, hr, hx⟩))
      exact ⟨st', hs,
        inv_after_fail cfg hInv hge hA hC (hR ▸ hInv.hR) hcur hl,
        phi_lt_after_fail cfg hInv hc hA hC, hcur⟩
  | .zip (.csv df) =>
    match hex : extractSeries cfg.market df with
    | none =>
      obtain ⟨st', hs, hA, hC, hR, _, hl, hcur, _, _⟩ :=
        step_fail cfg oracle st hInv hc (Or.inr (Or.inr ⟨df, hr, hex⟩))
      exact ⟨st', hs,
        inv_after_fail cfg hInv hge hA hC (hR ▸ hInv.hR) hcur hl,
        phi_lt_after_fail cfg hInv hc hA hC, hcur⟩
    | some srs =>
      cases hnull : hasNull srs with
      | true =>
        obtain ⟨st', hs, hA, hC, hR, _, hl, hcur⟩ :=
          step_nullStore cfg oracle st df srs hInv hc hr hex hnull
        refine ⟨st', hs, ?_, phi_lt_after_fail cfg hInv hc hA hC, hcur⟩
        refine inv_after_fail cfg hInv hge hA hC ?_ hcur hl
        rw [hR, List.length_set]
        exact hInv.hR
      | false =>
        obtain ⟨st', hs, hA, hC, hR, _, hl, hcur⟩ :=
          step_success cfg oracle st df srs hInv hc hr hex hnull
        refine ⟨st', hs, ?_, phi_lt_after_success cfg hInv hc hA hC, hcur⟩
        refine inv_after_success cfg hInv hA hC ?_ hcur hl
        rw [hR, List.length_set]
        exact hInv.hR

theorem pendingAheadB_iff (n c : ℕ) (comp : List Bool) :
    pendingAheadB n c comp = true ↔
      ∃ j, c ≤ j ∧ j < n ∧ comp.getD j false = false := by
  simp only [pendingAheadB, List.any_eq_true, List.mem_range,
    Bool.and_eq_true, decide_eq_true_eq, Bool.not_eq_true']
  constructor
  · rintro ⟨j, h1, h2, h3⟩
    exact ⟨j, h2, h1, h3⟩
  · rintro ⟨j, h1, h2, h3⟩
    exact ⟨j, h2, h1, h3⟩

theorem not_allDone_exists (comp : List Bool)
    (h : comp.all (fun b => b) = false) :
    ∃ j, j < comp.length ∧ comp.getD j false = false := by
  by_contra hno
  push_neg at hno
  have hall : comp.all (fun b => b) = true := by
    rw [List.all_eq_true]
    intro b hb
    obtain ⟨j, hj, rfl⟩ := List.mem_iff_getElem.mp hb
    have h2 := hno j hj
    rw [List.getD_eq_getElem _ _ hj] at h2
    cases hv : comp[j] with
    | true => rfl
    | false => exact absurd hv h2
  rw [hall] at h
  exact Bool.noConfusion h

/-- With a response stream that never raises inside the fetcher, the scan
loop of `scrape_daterange` terminates: `budget` fuel suffices to reach the
normal exit of the `while` loop. -/
theorem runLoop_terminates (cfg : RunCfg) (oracle : ℕ → HttpResponse)
    (hgood : ∀ k, respRaises (oracle k) = false) :
    ∀ fuel st, Inv cfg st → budget cfg st ≤ fuel →
      ∃ st', runLoop cfg oracle fuel st = .ok (some st') := by
  intro fuel
  induction fuel using Nat.strong_induction_on with
  | _ fuel ih =>
    intro st hInv hbud
    have hn : 0 < nWindows cfg := lt_of_le_of_lt (Nat.zero_le _) hInv.hcur
    have hcurn := hInv.hcur
    have hb1 : 1 ≤ budget cfg st := by
      unfold budget
      generalize phi cfg st * (2 * nWindows cfg) = A
      split <;> omega
    obtain ⟨f, rfl⟩ : ∃ f, fuel = f + 1 := ⟨fuel - 1, by omega⟩
    by_cases hall : st.completion.all (fun b => b) = true
    · refine ⟨st, ?_⟩
      simp only [runLoop]
      rw [if_pos hall]
    · have hallf : st.completion.all (fun b => b) = false := by
        cases h : st.completion.all (fun b => b)
        · rfl
        · exact absurd h hall
      obtain ⟨jp, hjp, hjpend⟩ := not_allDone_exists st.completion hallf
      rw [hInv.hC] at hjp
      cases hcb : st.completion.getD st.cursor false with
      | false =>
        obtain ⟨st', hstep, hInv', hphi, hcur'⟩ :=
          step_pending_good cfg oracle st hInv hcb (hgood st.clock)
        have h1 : phi cfg st' + 1 ≤ phi cfg st := hphi
        have h2 : (phi cfg st' + 1) * (2 * nWindows cfg) ≤
            phi cfg st * (2 * nWindows cfg) :=
          Nat.mul_le_mul_right _ h1
        have h3 : phi cfg st' * (2 * nWindows cfg) + 2 * nWindows cfg =
            (phi cfg st' + 1) * (2 * nWindows cfg) := by ring
        have h4 : budget cfg st' ≤
            phi cfg st' * (2 * nWindows cfg) + 2 * nWindows cfg := by
          unfold budget
          have h5 : nWindows cfg - st'.cursor ≤ nWindows cfg :=
            Nat.sub_le _ _
          generalize phi cfg st' * (2 * nWindows cfg) = A at *
          split <;> omega
        have h6 : phi cfg st * (2 * nWindows cfg) + 1 ≤ budget cfg st := by
          unfold budget
          generalize phi cfg st * (2 * nWindows cfg) = A
          split <;> omega
        have h2' : phi cfg st' * (2 * nWindows cfg) + 2 * nWindows cfg ≤
            phi cfg st * (2 * nWindows cfg) := by
          rw [h3]
          exact h2
        obtain ⟨stf, hrun⟩ := ih f (by omega) st' hInv' (by omega)
        refine ⟨stf, ?_⟩
        simp only [runLoop]
        rw [if_neg hall, hstep]
        exact hrun
      | true =>
        obtain ⟨st', hstep, hA, hC, hR, hclock, hl, hcur, _, _⟩ :=
          step_skip cfg oracle st hInv hcb
        have hInv' : Inv cfg st' := Inv.of_eqs cfg hInv hA hC hR hcur hl
        have hphi' : phi cfg st' = phi cfg st := phi_congr cfg hA hC
        have hbud' : budget cfg st' + 1 ≤ budget cfg st := by
          by_cases hcc : st.cursor < nWindows cfg - 1
          · have hcur2 : st'.cursor = st.cursor + 1 := by
              rw [hcur, if_pos hcc]
            have hw : (if pendingAheadB (nWindows cfg) st'.cursor
                  st'.completion then 0 else nWindows cfg) ≤
                (if pendingAheadB (nWindows cfg) st.cursor st.completion
                  then 0 else nWindows cfg) := by
              by_cases hpa : pendingAheadB (nWindows cfg) st.cursor
                  st.completion = true
              · have hpa' : pendingAheadB (nWindows cfg) st'.cursor
                    st'.completion = true := by
                  rw [pendingAheadB_iff] at hpa ⊢
                  obtain ⟨j, hj1, hj2, hj3⟩ := hpa
                  refine ⟨j, ?_, hj2, by rw [hC]; exact hj3⟩
                  rw [hcur2]
                  rcases Nat.eq_or_lt_of_le hj1 with rfl | hlt2
                  · rw [hcb] at hj3
                    exact Bool.noConfusion hj3
                  · omega
                rw [if_pos hpa, if_pos hpa']
              · rw [if_neg hpa]
                split <;> omega
            unfold budget
            rw [hphi', hcur2, hC]
            rw [hcur2, hC] at hw
            generalize phi cfg st * (2 * nWindows cfg) = A
            omega
          · have hcol : st.cursor = nWindows cfg - 1 := by omega
            have hcur2 : st'.cursor = 0 := by
              rw [hcur, if_neg hcc]
            have hpaf : pendingAheadB (nWindows cfg) st.cursor
                st.completion = false := by
              by_contra hpa
              have hpa' : pendingAheadB (nWindows cfg) st.cursor
                  st.completion = true := by
                cases h : pendingAheadB (nWindows cfg) st.cursor st.completion
                · exact absurd h hpa
                · rfl
              rw [pendingAheadB_iff] at hpa'
              obtain ⟨j, hj1, hj2, hj3⟩ := hpa'
              have : j = st.cursor := by omega
              subst this
              rw [hcb] at hj3
              exact Bool.noConfusion hj3
            have hpat : pendingAheadB (nWindows cfg) 0 st.completion
                = true := by
              rw [pendingAheadB_iff]
              exact ⟨jp, Nat.zero_le _, hjp, hjpend⟩
            have e1 : (if pendingAheadB (nWindows cfg) st.cursor
                  st.completion then 0 else nWindows cfg) = nWindows cfg := by
              rw [hpaf]
              exact if_neg (by simp)
            have e2 : (if pendingAheadB (nWindows cfg) 0 st.completion
                then 0 else nWindows cfg) = 0 := by
              rw [hpat]
              exact if_pos rfl
            unfold budget
            rw [hphi', hcur2, hC, e1, e2]
            generalize phi cfg st * (2 * nWindows cfg) = A
            omega
        obtain ⟨stf, hrun⟩ := ih f (by omega) st' hInv' (by omega)
        refine ⟨stf, ?_⟩
        simp only [runLoop]
        rw [if_neg hall, hstep]
        exact hrun

theorem allDone_getD {comp : List Bool} (hall : comp.all (fun b => b) = true)
    {j : ℕ} (hj : j < comp.length) : comp.getD j false = true := by
  rw [List.getD_eq_getElem _ _ hj]
  exact List.all_eq_true.mp hall _ (List.getElem_mem hj)

/-- On normal exit of the scan loop the invariant still holds, every
completion flag is set, and hence every window has either succeeded
(negative counter) or exhausted its attempt budget. -/
theorem runLoop_exit (cfg : RunCfg) (oracle : ℕ → HttpResponse) :
    ∀ fuel (st st' : OrchState), Inv cfg st →
      runLoop cfg oracle fuel st = .ok (some st') →
      Inv cfg st' ∧ st'.completion.all (fun b => b) = true ∧
        ∀ j, j < nWindows cfg →
          (st'.attempt.getD j 0 < 0 ∨
            cfg.max_n_attempts ≤ st'.attempt.getD j 0) := by
  intro fuel
  induction fuel with
  | zero =>
    intro st st' _ h
    rw [runLoop] at h
    cases h
  | succ f ih =>
    intro st st' hInv h
    rw [runLoop] at h
    by_cases hall : st.completion.all (fun b => b) = true
    · rw [if_pos hall] at h
      cases h
      refine ⟨hInv, hall, ?_⟩
      intro j hj
      have hc := allDone_getD hall (hInv.hC ▸ hj)
      have hd := hInv.hdone j hj
      rw [hc] at hd
      exact of_decide_eq_true hd.symm
    · rw [if_neg hall] at h
      cases hstep : step cfg oracle st with
      | error e =>
        rw [hstep] at h
        cases h
      | ok st1 =>
        rw [hstep] at h
        exact ih st1 st' (step_inv cfg oracle st st1 hInv hstep) h

/-- A window whose completion flag is set is terminal: no later scan step
changes its attempt counter, its completion flag, or its stored series. -/
theorem step_frozen (cfg : RunCfg) (oracle : ℕ → HttpResponse)
    (st st1 : OrchState) (hInv : Inv cfg st)
    (hstep : step cfg oracle st = .ok st1) :
    ∀ j, j < nWindows cfg → st.completion.getD j false = true →
      st1.attempt.getD j 0 = st.attempt.getD j 0 ∧
        st1.completion.getD j false = true ∧
        st1.results.getD j none = st.results.getD j none := by
  intro j hj hjc
  cases hcb : st.completion.getD st.cursor false with
  | true =>
    obtain ⟨st', hs, hA, hC, hR, _, _, _, _, _⟩ :=
      step_skip cfg oracle st hInv hcb
    rw [hs] at hstep
    cases hstep
    exact ⟨by rw [hA], by rw [hC]; exact hjc, by rw [hR]⟩
  | false =>
    have hji : st.cursor ≠ j := by
      intro hh
      rw [hh, hjc] at hcb
      exact Bool.noConfusion hcb
    match hr : oracle st.clock with
    | .notZip raw =>
      obtain ⟨st', hs, hA, hC, hR, _, _, _, _, _⟩ :=
        step_fail cfg oracle st hInv hcb (Or.inl ⟨raw, hr⟩)
      rw [hs] at hstep
      cases hstep
      exact ⟨by rw [hA, getD_set_ne _ hji],
        by rw [hC, getD_set_ne _ hji]; exact hjc, by rw [hR]⟩
    | .zip (.nonCsv none) =>
      rw [step_raises cfg oracle st hInv hcb (by rw [hr]; rfl)] at hstep
      cases hstep
    | .zip (.nonCsv (some x)) =>
      match hx : errDescPath x with
      | none =>
        rw [step_raises cfg oracle st hInv hcb
          (by rw [hr]; simp [respRaises, hx])] at hstep
        cases hstep
      | some msg =>
        obtain ⟨st', hs, hA, hC, hR, _, _, _, _, _⟩ :=
          step_fail cfg oracle st hInv hcb (Or.inr (Or.inl ⟨x, msg, hr, hx⟩))
        rw [hs] at hstep
        cases hstep
        exact ⟨by rw [hA, getD_set_ne _ hji],
          by rw [hC, getD_set_ne _ hji]; exact hjc, by rw [hR]⟩
    | .zip (.csv df) =>
      match hex : extractSeries cfg.market df with
      | none =>
        obtain ⟨st', hs, hA, hC, hR, _, _, _, _, _⟩ :=
          step_fail cfg oracle st hInv hcb (Or.inr (Or.inr ⟨df, hr, hex⟩))
        rw [hs] at hstep
        cases hstep
        exact ⟨by rw [hA, getD_set_ne _ hji],
          by rw [hC, getD_set_ne _ hji]; exact hjc, by rw [hR]⟩
      | some srs =>
        cases hnull : hasNull srs with
        | true =>
          obtain ⟨st', hs, hA, hC, hR, _, _, _⟩ :=
            step_nullStore cfg oracle st df srs hInv hcb hr hex hnull
          rw [hs] at hstep
          cases hstep
          exact ⟨by rw [hA, getD_set_ne _ hji],
            by rw [hC, getD_set_ne _ hji]; exact hjc,
            by rw [hR, getD_set_ne _ hji]⟩
        | false =>
          obtain ⟨st', hs, hA, hC, hR, _, _, _⟩ :=
            step_success cfg oracle st df srs hInv hcb hr hex hnull
          rw [hs] at hstep
          cases hstep
          exact ⟨by rw [hA, getD_set_ne _ hji],
            by rw [hC, getD_set_ne _ hji]; exact hjc,
            by rw [hR, getD_set_ne _ hji]⟩

/-- Every entry of an extracted sub-series comes from a row of the fetched
table whose `LMP_TYPE` is the LMP marker, with the row's timestamp and the
market's price column. -/
theorem extractSeries_mem (m : Market) (df : DataFrame) (srs : PriceSeries)
    (hex : extractSeries m df = some srs) :
    ∀ q ∈ srs, ∃ r ∈ df.rows, r.lmpType = "LMP" ∧ q.1 = r.intervalStart ∧
      q.2 = priceOf m r := by
  intro q hq
  unfold extractSeries at hex
  split at hex
  · cases hex
    rw [List.mem_map] at hq
    obtain ⟨r, hr, rfl⟩ := hq
    rw [List.mem_filter] at hr
    obtain ⟨hrs, hrl⟩ := hr
    refine ⟨r, ?_, by simpa using hrl, rfl, rfl⟩
    exact (List.perm_insertionSort _ _).mem_iff.mp hrs
  · cases hex

theorem hasNull_false_iff (srs : PriceSeries) :
    hasNull srs = false ↔ ∀ q ∈ srs, q.2 ≠ none := by
  rw [hasNull, List.any_eq_false]
  constructor
  · intro h q hq
    have := h q hq
    simpa [Option.isNone_iff_eq_none] using this
  · intro h q hq
    simpa [Option.isNone_iff_eq_none] using h q hq

/-- C1 counterexample: a category (b) format failure (the single archive
entry is not CSV and not a well-formed error report) is NOT caught at the
window level — the exception raised inside `scrape_singlezip` propagates past
the orchestrator's `try:` (line 155 is outside it) and aborts the whole range
fetch. -/
theorem C1_abort_counterexample :
    (∀ k, orGarbage k = .zip (.nonCsv none)) ∧
    scrape_daterange cfgC1 orGarbage 3 = .error () :=
  ⟨fun _ => rfl, rfl⟩

/-- C1 amended: failures of category (a) (body not a zip), category (b) when
the entry parses as an error report with the fixed path, and category (c)
(missing expected columns, or null prices) are caught at the window level and
become a retry: the window's attempt counter increases by one and the window
is pending again unless the attempt cap is reached.  A category (b) failure
whose bytes are not a well-formed error report instead raises out of the
fetcher, aborting the whole range fetch. -/
theorem C1_window_failures_retry (cfg : RunCfg) (oracle : ℕ → HttpResponse)
    (st : OrchState) (hInv : Inv cfg st)
    (hc : st.completion.getD st.cursor false = false) :
    (((∃ raw, oracle st.clock = .notZip raw) ∨
      (∃ x msg, oracle st.clock = .zip (.nonCsv (some x)) ∧
        errDescPath x = some msg) ∨
      (∃ df, oracle st.clock = .zip (.csv df) ∧
        extractSeries cfg.market df = none) ∨
      (∃ df srs, oracle st.clock = .zip (.csv df) ∧
        extractSeries cfg.market df = some srs ∧ hasNull srs = true)) →
      ∃ st', step cfg oracle st = .ok st' ∧
        st'.attempt.getD st.cursor 0 = st.attempt.getD st.cursor 0 + 1 ∧
        st'.completion.getD st.cursor false =
          decide (cfg.max_n_attempts ≤ st.attempt.getD st.cursor 0 + 1)) ∧
    (respRaises (oracle st.clock) = true →
      step cfg oracle st = .error ()) := by
  have hlenA : st.cursor < st.attempt.length := hInv.hA ▸ hInv.hcur
  have hlenC : st.cursor < st.completion.length := hInv.hC ▸ hInv.hcur
  constructor
  · intro hfail
    rcases hfail with h3 | h3 | h3 | ⟨df, srs, hr, hex, hnull⟩
    · obtain ⟨st', hs, hA, hC, _, _, _, _, _, _⟩ :=
        step_fail cfg oracle st hInv hc (Or.inl h3)
      exact ⟨st', hs, by rw [hA, getD_set_self _ _ hlenA],
        by rw [hC, getD_set_self _ _ hlenC]⟩
    · obtain ⟨st', hs, hA, hC, _, _, _, _, _, _⟩ :=
        step_fail cfg oracle st hInv hc (Or.inr (Or.inl h3))
      exact ⟨st', hs, by rw [hA, getD_set_self _ _ hlenA],
        by rw [hC, getD_set_self _ _ hlenC]⟩
    · obtain ⟨st', hs, hA, hC, _, _, _, _, _, _⟩ :=
        step_fail cfg oracle st hInv hc (Or.inr (Or.inr h3))
      exact ⟨st', hs, by rw [hA, getD_set_self _ _ hlenA],
        by rw [hC, getD_set_self _ _ hlenC]⟩
    · obtain ⟨st', hs, hA, hC, _, _, _, _⟩ :=
        step_nullStore cfg oracle st df srs hInv hc hr hex hnull
      exact ⟨st', hs, by rw [hA, getD_set_self _ _ hlenA],
        by rw [hC, getD_set_self _ _ hlenC]⟩
  · intro hraise
    exact step_raises cfg oracle st hInv hc hraise

/-- Witness for C1 on a not-a-zip response at the initial state of the
one-window DA run. -/
theorem C1_window_failures_retry_witness :
    ∃ st', step cfgC1 orNotZip (initState cfgC1) = .ok st' ∧
      st'.attempt.getD (initState cfgC1).cursor 0 =
        (initState cfgC1).attempt.getD (initState cfgC1).cursor 0 + 1 ∧
      st'.completion.getD (initState cfgC1).cursor false =
        decide (cfgC1.max_n_attempts ≤
          (initState cfgC1).attempt.getD (initState cfgC1).cursor 0 + 1) :=
  (C1_window_failures_retry cfgC1 orNotZip (initState cfgC1)
    (initState_inv cfgC1 (by decide) (by decide)) (by decide)).1
    (Or.inl ⟨"rate-limit HTML page", rfl⟩)

/-- C2 counterexample: on a null-price validation failure the accumulation is
NOT left unchanged — line 163 stores the sub-series before the line-164
assert, so the null-priced series sits in `results_dict` while the window's
attempt counter shows a failure and the window is still pending. -/
theorem C2_store_before_validate_counterexample :
    (initState cfgNoCache).results = [none] ∧
    ∃ st', step cfgNoCache orNull (initState cfgNoCache) = .ok st' ∧
      st'.results = [some [(5, none)]] ∧
      st'.attempt = [1] ∧
      st'.completion = [false] ∧
      hasNull [(5, none)] = true :=
  ⟨rfl, _, rfl, rfl, rfl, rfl, rfl⟩

/-- C2 amended: on a fully successful attempt the stored sub-series is the
extracted one — no null prices, only rows whose `LMP_TYPE` equals the LMP
marker — and the window is terminal with the success sentinel.  On a
null-price validation failure the window stays pending (bounded by the cap)
with its counter incremented, but the accumulation is NOT left unchanged: the
null-priced sub-series is stored (line 163 precedes the line-164 check). -/
theorem C2_stored_series (cfg : RunCfg) (oracle : ℕ → HttpResponse)
    (st : OrchState) (hInv : Inv cfg st)
    (hc : st.completion.getD st.cursor false = false) :
    (∀ df srs, oracle st.clock = .zip (.csv df) →
      extractSeries cfg.market df = some srs → hasNull srs = false →
      ∃ st', step cfg oracle st = .ok st' ∧
        st'.results.getD st.cursor none = some srs ∧
        st'.attempt.getD st.cursor 0 = -1 ∧
        st'.completion.getD st.cursor false = true ∧
        (∀ q ∈ srs, q.2 ≠ none) ∧
        (∀ q ∈ srs, ∃ r ∈ df.rows, r.lmpType = "LMP" ∧
          q.1 = r.intervalStart ∧ q.2 = priceOf cfg.market r)) ∧
    (∀ df srs, oracle st.clock = .zip (.csv df) →
      extractSeries cfg.market df = some srs → hasNull srs = true →
      ∃ st', step cfg oracle st = .ok st' ∧
        st'.results.getD st.cursor none = some srs ∧
        st'.attempt.getD st.cursor 0 = st.attempt.getD st.cursor 0 + 1 ∧
        st'.completion.getD st.cursor false =
          decide (cfg.max_n_attempts ≤ st.attempt.getD st.cursor 0 + 1)) := by
  have hlenA : st.cursor < st.attempt.length := hInv.hA ▸ hInv.hcur
  have hlenC : st.cursor < st.completion.length := hInv.hC ▸ hInv.hcur
  have hlenR : st.cursor < st.results.length := hInv.hR ▸ hInv.hcur
  constructor
  · intro df srs hr hex hnull
    obtain ⟨st', hs, hA, hC, hR, _, _, _⟩ :=
      step_success cfg oracle st df srs hInv hc hr hex hnull
    exact ⟨st', hs, by rw [hR, getD_set_self _ _ hlenR],
      by rw [hA, getD_set_self _ _ hlenA],
      by rw [hC, getD_set_self _ _ hlenC],
      (hasNull_false_iff srs).mp hnull,
      extractSeries_mem cfg.market df srs hex⟩
  · intro df srs hr hex hnull
    obtain ⟨st', hs, hA, hC, hR, _, _, _⟩ :=
      step_nullStore cfg oracle st df srs hInv hc hr hex hnull
    exact ⟨st', hs, by rw [hR, getD_set_self _ _ hlenR],
      by rw [hA, getD_set_self _ _ hlenA],
      by rw [hC, getD_set_self _ _ hlenC]⟩

/-- Witness for C2 on a successful fetch at the initial state. -/
theorem C2_stored_series_witness :
    ∃ st', step cfgC1 orGood (initState cfgC1) = .ok st' ∧
      st'.results.getD (initState cfgC1).cursor none =
        some [(0, some 7), (1, some 10)] ∧
      st'.attempt.getD (initState cfgC1).cursor 0 = -1 ∧
      st'.completion.getD (initState cfgC1).cursor false = true ∧
      (∀ q ∈ ([(0, some 7), (1, some 10)] : PriceSeries), q.2 ≠ none) ∧
      (∀ q ∈ ([(0, some 7), (1, some 10)] : PriceSeries),
        ∃ r ∈ dfGood.rows, r.lmpType = "LMP" ∧ q.1 = r.intervalStart ∧
          q.2 = priceOf cfgC1.market r) :=
  (C2_stored_series cfgC1 orGood (initState cfgC1)
    (initState_inv cfgC1 (by decide) (by decide)) (by decide)).1
    dfGood [(0, some 7), (1, some 10)] rfl rfl rfl

/-- C10: with continuous caching configured and an empty accumulation, a scan
step that does not store anything (window already complete, or a caught
fetch/parse failure) leaves the output file unwritten: `pd.concat` raises, the
error is caught and logged, and the loop continues (the step returns
normally) with the accumulation still empty. -/
theorem C10_empty_concat_caught (cfg : RunCfg) (oracle : ℕ → HttpResponse)
    (st : OrchState) (hInv : Inv cfg st)
    (hcc : cfg.cache_continuously = true)
    (hempty : ∀ r ∈ st.results, r = none)
    (hnostore : st.completion.getD st.cursor false = true ∨
      (st.completion.getD st.cursor false = false ∧
        ((∃ raw, oracle st.clock = .notZip raw) ∨
         (∃ x msg, oracle st.clock = .zip (.nonCsv (some x)) ∧
           errDescPath x = some msg) ∨
         (∃ df, oracle st.clock = .zip (.csv df) ∧
           extractSeries cfg.market df = none)))) :
    ∃ st', step cfg oracle st = .ok st' ∧
      st'.outFile = st.outFile ∧
      LogEvent.concatFailure ∈ st'.log ∧
      st'.results = st.results := by
  have hnil : st.results.filterMap id = [] := by
    rw [List.filterMap_eq_nil_iff]
    exact hempty
  have hemp : (st.results.filterMap id).isEmpty = true := by
    rw [hnil]
    rfl
  have hcond : (cfg.cache_continuously ||
      st.completion.all (fun b => b)) = true := by
    rw [hcc]
    rfl
  rcases hnostore with hcb | ⟨hcb, hfail⟩
  · obtain ⟨st', hs, _, _, hR, _, _, _, hof, hlog⟩ :=
      step_skip cfg oracle st hInv hcb
    refine ⟨st', hs, ?_, hlog hcond hemp, hR⟩
    rw [hof, if_neg]
    rintro ⟨-, habs⟩
    rw [hemp] at habs
    exact Bool.noConfusion habs
  · obtain ⟨st', hs, _, _, hR, _, _, _, hof, hlog⟩ :=
      step_fail cfg oracle st hInv hcb hfail
    refine ⟨st', hs, ?_, hlog hcond hemp, hR⟩
    rw [hof, if_neg]
    rintro ⟨-, habs⟩
    rw [hemp] at habs
    exact Bool.noConfusion habs

/-- Witness for C10 at the initial state with a not-a-zip response. -/
theorem C10_empty_concat_caught_witness :
    ∃ st', step cfgC1 orNotZip (initState cfgC1) = .ok st' ∧
      st'.outFile = (initState cfgC1).outFile ∧
      LogEvent.concatFailure ∈ st'.log ∧
      st'.results = (initState cfgC1).results :=
  C10_empty_concat_caught cfgC1 orNotZip (initState cfgC1)
    (initState_inv cfgC1 (by decide) (by decide)) rfl
    (fun _ hr => List.eq_of_mem_replicate hr)
    (Or.inr ⟨by decide, Or.inl ⟨"rate-limit HTML page", rfl⟩⟩)

/-- C6 at the failing input `cache_continuously=False`: the end-of-run save
condition `cache_continuously or completion_srs.all()` (line 175) is
evaluated before the completion update (line 190), so it can never fire: the
loop exits with data collected, no output file ever written, and the returned
`result_srs` is the last window's sub-series rather than a concatenation. -/
theorem C6_no_cache_never_writes :
    ∃ st', runLoop cfgNoCache orGood 2 (initState cfgNoCache) =
        .ok (some st') ∧
      st'.outFile = none ∧
      st'.results = [some [(0, some 7), (1, some 10)]] ∧
      st'.completion = [true] ∧
      st'.ret = [(0, some 7), (1, some 10)] :=
  ⟨_, rfl, rfl, rfl, rfl, rfl⟩

/-- C3: per-window attempt accounting.  (1) a failed attempt — transport,
format, missing-column, or null-price — increments exactly that window's
counter by one; (2) a successful attempt never increases the counter (it is
set to the `-1` success sentinel) and makes the window terminal;
(3) terminal windows (succeeded or exhausted) are frozen: later steps change
neither their counter, their completion flag, nor their stored series;
(4) when every completion flag is set the loop exits immediately with the
same state; (5) whenever the loop exits normally, every window has either
succeeded or reached the attempt cap — an exhausted window counts as done and
does not make the run fail; (6) with a never-raising response stream, a cap
of at least one attempt and at least one window, the loop does terminate
normally. -/
theorem C3_attempt_accounting (cfg : RunCfg) (oracle : ℕ → HttpResponse) :
    (∀ st, Inv cfg st → st.completion.getD st.cursor false = false →
      ((∃ raw, oracle st.clock = .notZip raw) ∨
       (∃ x msg, oracle st.clock = .zip (.nonCsv (some x)) ∧
         errDescPath x = some msg) ∨
       (∃ df, oracle st.clock = .zip (.csv df) ∧
         extractSeries cfg.market df = none) ∨
       (∃ df srs, oracle st.clock = .zip (.csv df) ∧
         extractSeries cfg.market df = some srs ∧ hasNull srs = true)) →
      ∃ st', step cfg oracle st = .ok st' ∧
        st'.attempt.getD st.cursor 0 = st.attempt.getD st.cursor 0 + 1 ∧
        ∀ j, j ≠ st.cursor → st'.attempt.getD j 0 = st.attempt.getD j 0) ∧
    (∀ st df srs, Inv cfg st → st.completion.getD st.cursor false = false →
      oracle st.clock = .zip (.csv df) →
      extractSeries cfg.market df = some srs → hasNull srs = false →
      ∃ st', step cfg oracle st = .ok st' ∧
        st'.attempt.getD st.cursor 0 = -1 ∧
        st'.attempt.getD st.cursor 0 ≤ st.attempt.getD st.cursor 0 ∧
        st'.completion.getD st.cursor false = true) ∧
    (∀ st st', Inv cfg st → step cfg oracle st = .ok st' →
      ∀ j, j < nWindows cfg → st.completion.getD j false = true →
        st'.attempt.getD j 0 = st.attempt.getD j 0 ∧
          st'.completion.getD j false = true) ∧
    (∀ st fuel, st.completion.all (fun b => b) = true →
      runLoop cfg oracle (fuel + 1) st = .ok (some st)) ∧
    (∀ fuel st st', Inv cfg st →
      runLoop cfg oracle fuel st = .ok (some st') →
      ∀ j, j < nWindows cfg →
        (st'.attempt.getD j 0 < 0 ∨
          cfg.max_n_attempts ≤ st'.attempt.getD j 0)) ∧
    ((∀ k, respRaises (oracle k) = false) → 1 ≤ cfg.max_n_attempts →
      0 < nWindows cfg →
      ∃ fuel st', scrape_daterange cfg oracle fuel = .ok (some st') ∧
        st'.completion.all (fun b => b) = true) := by
  refine ⟨?_, ?_, ?_, ?_, ?_, ?_⟩
  · intro st hInv hc hfail
    have hlenA : st.cursor < st.attempt.length := hInv.hA ▸ hInv.hcur
    rcases hfail with h3 | h3 | h3 | ⟨df, srs, hr, hex, hnull⟩
    · obtain ⟨st', hs, hA, _, _, _, _, _, _, _⟩ :=
        step_fail cfg oracle st hInv hc (Or.inl h3)
      exact ⟨st', hs, by rw [hA, getD_set_self _ _ hlenA],
        fun j hj => by rw [hA, getD_set_ne _ (fun h => hj h.symm)]⟩
    · obtain ⟨st', hs, hA, _, _, _, _, _, _, _⟩ :=
        step_fail cfg oracle st hInv hc (Or.inr (Or.inl h3))
      exact ⟨st', hs, by rw [hA, getD_set_self _ _ hlenA],
        fun j hj => by rw [hA, getD_set_ne _ (fun h => hj h.symm)]⟩
    · obtain ⟨st', hs, hA, _, _, _, _, _, _, _⟩ :=
        step_fail cfg oracle st hInv hc (Or.inr (Or.inr h3))
      exact ⟨st', hs, by rw [hA, getD_set_self _ _ hlenA],
        fun j hj => by rw [hA, getD_set_ne _ (fun h => hj h.symm)]⟩
    · obtain ⟨st', hs, hA, _, _, _, _, _⟩ :=
        step_nullStore cfg oracle st df srs hInv hc hr hex hnull
      exact ⟨st', hs, by rw [hA, getD_set_self _ _ hlenA],
        fun j hj => by rw [hA, getD_set_ne _ (fun h => hj h.symm)]⟩
  · intro st df srs hInv hc hr hex hnull
    have hlenA : st.cursor < st.attempt.length := hInv.hA ▸ hInv.hcur
    have hlenC : st.cursor < st.completion.length := hInv.hC ▸ hInv.hcur
    have hge := (pending_bounds cfg hInv hc).1
    obtain ⟨st', hs, hA, hC, _, _, _, _⟩ :=
      step_success cfg oracle st df srs hInv hc hr hex hnull
    refine ⟨st', hs, by rw [hA, getD_set_self _ _ hlenA], ?_,
      by rw [hC, getD_set_self _ _ hlenC]⟩
    rw [hA, getD_set_self _ _ hlenA]
    omega
  · intro st st' hInv hstep j hj hjc
    obtain ⟨h1, h2, _⟩ := step_frozen cfg oracle st st' hInv hstep j hj hjc
    exact ⟨h1, h2⟩
  · intro st fuel hall
    rw [runLoop, if_pos hall]
  · intro fuel st st' hInv hrun
    exact (runLoop_exit cfg oracle fuel st st' hInv hrun).2.2
  · intro hgood hmax hn
    obtain ⟨st', hrun⟩ := runLoop_terminates cfg oracle hgood
      (budget cfg (initState cfg)) (initState cfg)
      (initState_inv cfg hmax hn) le_rfl
    have hall := (runLoop_exit cfg oracle _ _ _
      (initState_inv cfg hmax hn) hrun).2.1
    exact ⟨budget cfg (initState cfg), st', hrun, hall⟩

/-- Witness for C3: the one-window DA run with a never-failing upstream
terminates normally with its window complete; a concrete failed attempt
increments the counter from 0 to 1. -/
theorem C3_attempt_accounting_witness :
    (∃ fuel st', scrape_daterange cfgC1 orGood fuel = .ok (some st') ∧
      st'.completion.all (fun b => b) = true) ∧
    (∃ st', step cfgC1 orNotZip (initState cfgC1) = .ok st' ∧
      st'.attempt.getD (initState cfgC1).cursor 0 =
        (initState cfgC1).attempt.getD (initState cfgC1).cursor 0 + 1 ∧
      ∀ j, j ≠ (initState cfgC1).cursor →
        st'.attempt.getD j 0 = (initState cfgC1).attempt.getD j 0) :=
  ⟨(C3_attempt_accounting cfgC1 orGood).2.2.2.2.2 (fun _ => rfl) (by decide)
      (by decide),
    (C3_attempt_accounting cfgC1 orNotZip).1 (initState cfgC1)
      (initState_inv cfgC1 (by decide) (by decide)) (by decide)
      (Or.inl ⟨"rate-limit HTML page", rfl⟩)⟩

end Caiso
